import Mathlib

/-!
# Quash shell (`shell.c`): tokenizer, dispatch and process-execution core

A shallow embedding of `shell.c`.

* C strings are `List Char` (the bytes before the terminating NUL).
* `char *arguments[]` is a list of slots, `none` being the `NULL` pointer.
  Reads and writes outside the array are faults, not silent no-ops.
* `getenv` is a function from names to optional values.
* System calls whose result the kernel decides (`pipe`, `fork`, `execvp`,
  `waitpid`, `kill`) take that result as an argument; every call the code
  makes is appended to a trace in program order. A function is followed in one
  process: the value `fork` returns says whether that process is the parent or
  the child.
* The expiry of the 10-second timer is delivered while the parent blocks in
  `waitpid`. Whether `perror` changes `errno` is the kernel's and the library's
  answer, like the other results.
* Prompt printing, `fgets` and what the built-ins print or change are outside
  this development; of `execute_builtin` only the return value is kept.
-/

set_option maxRecDepth 100000

namespace Quash

/-! ## Constants and basic types -/

/-- The constant `#define MAX_COMMAND_LINE_ARGS 128`. -/
def MAX_COMMAND_LINE_ARGS : Nat := 128

/-- A C string: its characters up to, not including, the terminating NUL. -/
abbrev CStr := List Char

/-- The type of `char *arguments[]`: one slot per array element, `none` is `NULL`. -/
abbrev ArgArray := List (Option CStr)

/-- The process environment as seen through `getenv`. -/
abbrev Env := CStr → Option CStr

/-- Ways the embedding can fail to produce a result. -/
inductive Fault where
  | outOfFuel
  | outOfBounds
  | nullDeref
  deriving DecidableEq, Repr

deriving instance DecidableEq for Except

/-- The array `char delimiters[] = " \t\r\n";` as a membership test. -/
def delimiters (c : Char) : Bool :=
  c == ' ' || c == '\t' || c == '\r' || c == '\n'

/-- Bounds-checked `a[i] = v`. -/
def writeArg (a : ArgArray) (i : Nat) (v : Option CStr) : Except Fault ArgArray :=
  if i < a.length then .ok (a.set i v) else .error .outOfBounds

/-- Bounds-checked `a[i]`. -/
def readArg (a : ArgArray) (i : Nat) : Except Fault (Option CStr) :=
  match a[i]? with
  | some v => .ok v
  | none => .error .outOfBounds

/-! ## `strtok` and `tokenize` -/

/-- One call of `strtok` on the not yet consumed part of the line: skip leading
delimiters; at the end of the string return `NULL` (`none`); otherwise the token
runs to the next delimiter, which is overwritten by NUL, and the saved position
is just past it (or at the end of the string). -/
def strtok (s : CStr) : Option (CStr × CStr) :=
  match s.dropWhile delimiters with
  | [] => none
  | c :: cs =>
    some ((c :: cs).takeWhile (fun x => !delimiters x),
          ((c :: cs).dropWhile (fun x => !delimiters x)).drop 1)

/-- The `while` loop of `tokenize` (lines 55-71). `token` is the current result of
`strtok` together with the rest of the line, `i` the write index, `warned` the
variable names reported unset on standard error so far. One unit of fuel is spent
per evaluation of the loop condition. -/
def tokenizeLoop (env : Env) :
    Nat → Option (CStr × CStr) → Nat → ArgArray → List CStr →
      Except Fault (Nat × ArgArray × List CStr)
  | 0, _, _, _, _ => .error .outOfFuel
  | fuel + 1, token, i, arguments, warned =>
    match token with
    | none => .ok (i, arguments, warned)
    | some (tok, rest) =>
      if i < MAX_COMMAND_LINE_ARGS - 1 then
        if tok.head? = some '$' then
          let var_name := tok.drop 1
          match env var_name with
          | some var_value =>
            match writeArg arguments i (some var_value) with
            | .ok arguments1 =>
              tokenizeLoop env fuel (strtok rest) (i + 1) arguments1 warned
            | .error e => .error e
          | none => tokenizeLoop env fuel (strtok rest) i arguments (warned ++ [var_name])
        else
          match writeArg arguments i (some tok) with
          | .ok arguments1 => tokenizeLoop env fuel (strtok rest) (i + 1) arguments1 warned
          | .error e => .error e
      else .ok (i, arguments, warned)

/-- The function `int tokenize(char *command_line, char *arguments[])` (lines 51-74):
returns the count, the array after the writes, and the names warned about on standard
error. The fuel is the length of the line plus two, which the loop cannot exhaust. -/
def tokenize (env : Env) (command_line : CStr) (arguments : ArgArray) :
    Except Fault (Nat × ArgArray × List CStr) :=
  match tokenizeLoop env (command_line.length + 2) (strtok command_line) 0 arguments [] with
  | .ok (i, arguments1, warned) =>
    match writeArg arguments1 i none with
    | .ok arguments2 => .ok (i, arguments2, warned)
    | .error e => .error e
  | .error e => .error e

/-! ## What the specification says a line expands to -/

/-- The tokens of a line: the maximal runs of non-delimiter characters, in order. -/
def lineTokens (line : CStr) : List CStr :=
  (line.splitOnP (fun c => delimiters c)).filter (fun t => !t.isEmpty)

/-- Expansion of one token: `$NAME` becomes the value of `NAME` when set and
nothing when unset; any other token is itself. -/
def expandToken (env : Env) (tok : CStr) : Option CStr :=
  if tok.head? = some '$' then env (tok.drop 1) else some tok

/-- The expanded line: every token expanded, unset variables dropped. -/
def expandedLine (env : Env) (line : CStr) : List CStr :=
  (lineTokens line).filterMap (expandToken env)

/-- The tokens still to come once `strtok` has returned `token`. -/
def pending : Option (CStr × CStr) → List CStr
  | none => []
  | some (t, r) => t :: lineTokens r

/-- The names the loop warns about when it meets the given tokens from write index
`i` on: the unset `$NAME` tokens it reaches before the array is full. -/
def loopWarnings (env : Env) : List CStr → Nat → List CStr
  | [], _ => []
  | tok :: toks, i =>
    if i < MAX_COMMAND_LINE_ARGS - 1 then
      match expandToken env tok with
      | some _ => loopWarnings env toks (i + 1)
      | none => tok.drop 1 :: loopWarnings env toks i
    else []

/-- A bound on the number of further loop iterations. -/
def restLen : Option (CStr × CStr) → Nat
  | none => 0
  | some (_, r) => r.length + 1

/-! ## Built-ins, pipe search and the body of the main loop -/

/-- What `execute_builtin` does with the line, as far as its caller can tell:
`exit(0)`, return 1 (a built-in ran) or return 0. -/
inductive BuiltinResult where
  | exits
  | handled
  | notBuiltin
  deriving DecidableEq, Repr

/-- The names `execute_builtin` recognises and returns 1 for (lines 93-131). -/
def builtinNames : List CStr :=
  ["pwd".toList, "cd".toList, "echo".toList, "env".toList, "setenv".toList]

/-- The function `int execute_builtin(char *arguments[], int arg_count)` (lines
88-133), reduced to its control flow: the `strcmp` chain on `arguments[0]`. What the
built-ins print or change is not part of this development. -/
def execute_builtin (arguments : ArgArray) (_arg_count : Nat) : Except Fault BuiltinResult :=
  match readArg arguments 0 with
  | .error e => .error e
  | .ok none => .ok .notBuiltin
  | .ok (some name) =>
    if name = "exit".toList then .ok .exits
    else if name ∈ builtinNames then .ok .handled
    else .ok .notBuiltin

/-- The scan of `find_pipe` from slot `i` on; the list is the part of the array
from slot `i`. Running off the array before a `NULL` is a fault. -/
def find_pipe_from : List (Option CStr) → Nat → Except Fault Int
  | [], _ => .error .outOfBounds
  | none :: _, _ => .ok (-1)
  | some a :: rest, i =>
    if a = "|".toList then .ok (i : Int) else find_pipe_from rest (i + 1)

/-- The function `int find_pipe(char *arguments[])` (lines 136-143). -/
def find_pipe (arguments : ArgArray) : Except Fault Int :=
  find_pipe_from arguments 0

/-- The loop of lines 332-335 filling `cmd2_args` from the slots after the pipe,
followed by the terminator written at line 335. The result is the written part
of `cmd2_args`. -/
def copy_cmd2 : List (Option CStr) → Except Fault ArgArray
  | [] => .error .outOfBounds
  | none :: _ => .ok [none]
  | some a :: rest =>
    match copy_cmd2 rest with
    | .ok l => .ok (some a :: l)
    | .error e => .error e

/-- The call, if any, that one iteration of the main loop ends in. -/
inductive Dispatch where
  /-- The `continue` at line 299 or 307: nothing to run. -/
  | skipped
  /-- Line 318: `execute_builtin` returned nonzero or exited. -/
  | builtin (r : BuiltinResult)
  /-- Line 338: "Shell: Invalid pipe command format." on standard error. -/
  | invalidPipe
  /-- Line 340: `execute_pipe(cmd1_args, cmd2_args, is_background)`. -/
  | pipe (cmd1_args cmd2_args : ArgArray) (is_background : Bool)
  /-- Line 345: `execute_single_command(arguments, arg_count, is_background)`. -/
  | single (arguments : ArgArray) (arg_count : Nat) (is_background : Bool)
  deriving DecidableEq, Repr

/-- Lines 309-315: test the last token against `&` and strip it. Entered with
`arg_count > 0`. Returns the flag, the array and the count. -/
def strip_background (arguments : ArgArray) (arg_count : Nat) :
    Except Fault (Bool × ArgArray × Nat) :=
  if arg_count > 0 then
    match readArg arguments (arg_count - 1) with
    | .error e => .error e
    | .ok none => .error .nullDeref
    | .ok (some last) =>
      if last = "&".toList then
        match writeArg arguments (arg_count - 1) none with
        | .ok arguments1 => .ok (true, arguments1, arg_count - 1)
        | .error e => .error e
      else .ok (false, arguments, arg_count)
  else .ok (false, arguments, arg_count)

/-- Lines 317-346: built-in check, pipe search, split and hand-over. -/
def dispatch (arguments : ArgArray) (arg_count : Nat) (is_background : Bool) :
    Except Fault Dispatch :=
  match execute_builtin arguments arg_count with
  | .error e => .error e
  | .ok .exits => .ok (.builtin .exits)
  | .ok .handled => .ok (.builtin .handled)
  | .ok .notBuiltin =>
    match find_pipe arguments with
    | .error e => .error e
    | .ok pipe_index =>
      if pipe_index > 0 then
        let cmd1_args : ArgArray := arguments.take pipe_index.toNat ++ [none]
        match copy_cmd2 (arguments.drop (pipe_index.toNat + 1)) with
        | .error e => .error e
        | .ok cmd2_args =>
          if cmd1_args.head? = some none ∨ cmd2_args.head? = some none then
            .ok .invalidPipe
          else .ok (.pipe cmd1_args cmd2_args is_background)
      else .ok (.single arguments arg_count is_background)

/-- One iteration of the `while (true)` loop of `main` from line 299 on, for a line
that `fgets` delivered: `arguments` is the array as the previous iteration left it.
Returns the call the iteration ends in, the array afterwards and the names the
tokenizer warned about. -/
def main_iteration (env : Env) (arguments : ArgArray) (command_line : CStr) :
    Except Fault (Dispatch × ArgArray × List CStr) :=
  if command_line = [] then .ok (.skipped, arguments, [])
  else
    let cmd_copy := command_line.takeWhile (fun c => c != '\n')
    match tokenize env cmd_copy arguments with
    | .error e => .error e
    | .ok (arg_count, arguments1, warned) =>
      if arg_count = 0 then .ok (.skipped, arguments1, warned)
      else
        match strip_background arguments1 arg_count with
        | .error e => .error e
        | .ok (is_background, arguments2, arg_count2) =>
          match dispatch arguments2 arg_count2 is_background with
          | .error e => .error e
          | .ok d => .ok (d, arguments2, warned)

/-- The tokenized line: the token list `tokenize` leaves in the array for a line that
`fgets` delivered, that is the first 127 expanded tokens of the line up to its
newline. -/
def tokenizedLine (env : Env) (command_line : CStr) : List CStr :=
  (expandedLine env (command_line.takeWhile (fun c => c != '\n'))).take
    (MAX_COMMAND_LINE_ARGS - 1)

/-- The tokenized line ends in the background marker `&`. -/
def hasBackgroundMarker (toks : List CStr) : Bool :=
  decide (toks.getLast? = some "&".toList)

/-- The command tokens of a tokenized line: the line without its trailing `&`, when
it has one. -/
def commandTokens (toks : List CStr) : List CStr :=
  if hasBackgroundMarker toks then toks.dropLast else toks

/-- A token other than the pipe separator `|`. -/
def notPipe (t : CStr) : Bool := decide (t ≠ "|".toList)

/-- A built-in name: `exit` or one of the names `execute_builtin` returns 1 for. -/
def isBuiltinName (t : CStr) : Prop := t = "exit".toList ∨ t ∈ builtinNames

instance (t : CStr) : Decidable (isBuiltinName t) :=
  inferInstanceAs (Decidable (_ ∨ _))

/-- The specification's well-formed pipeline: exactly one `|` token, neither first
nor last, so that it separates two non-empty argument groups. -/
def loneSeparator (toks : List CStr) : Prop :=
  (toks.filter (fun t => decide (t = "|".toList))).length = 1 ∧
    toks.head? ≠ some "|".toList ∧ toks.getLast? ≠ some "|".toList

instance (toks : List CStr) : Decidable (loneSeparator toks) :=
  inferInstanceAs (Decidable (_ ∧ _ ∧ _))

/-- The first element of an argument list as the launcher reads it
(`arguments[0]`): `none` when the slot is `NULL` or missing. -/
def firstArg (a : ArgArray) : Option CStr :=
  match a with
  | some s :: _ => some s
  | _ => none

/-- The argument lists a dispatch hands to the launcher. -/
def Dispatch.launched : Dispatch → List ArgArray
  | .pipe c1 c2 _ => [c1, c2]
  | .single a _ _ => [a]
  | _ => []

/-! ## Processes, signals and the trace of calls -/

/-- The signals the shell names. -/
inductive Signal where
  | SIGINT
  | SIGALRM
  | SIGKILL
  | SIGSEGV
  deriving DecidableEq, Repr

/-- Signal dispositions the shell installs. -/
inductive Disposition where
  | SIG_DFL
  | SIG_IGN
  | alarm_handler
  deriving DecidableEq, Repr

/-- No such file or directory; with `ESRCH` and `EINTR` the `errno` values the code
compares against. -/
def ENOENT : Nat := 2

/-- No such process. -/
def ESRCH : Nat := 3

/-- Interrupted system call. -/
def EINTR : Nat := 4

/-- Every call (and every store to the global `foreground_pid`) the code makes. -/
inductive Event where
  | pipe (ret : Option (Nat × Nat))
  | fork (ret : Int)
  | close (fd : Nat)
  | dup2 (oldfd newfd : Nat)
  | signal (sig : Signal) (disp : Disposition)
  | alarm (seconds : Nat)
  | execvp (file : Option CStr) (argv : ArgArray)
  | perror (s : Option CStr)
  | exit (status : Nat)
  | waitpid (pid : Int) (nohang : Bool)
  | kill (pid : Int) (sig : Signal)
  | storeForeground (pid : Int)
  | printTimedOut (pid : Int)
  | printBackgroundJob (pid : Int)
  | printNewline
  deriving DecidableEq, Repr

/-- The state of one process running the shell's code: the global `foreground_pid`,
the pending `alarm` (seconds, `none` when disarmed) and the calls made so far. -/
structure Shell where
  foreground_pid : Int
  timer : Option Nat
  trace : List Event
  deriving DecidableEq, Repr

/-- How a function of the shell ends for the process that runs it. -/
inductive Outcome where
  /-- The function returned to its caller; the shell's own logic continues. -/
  | returned (s : Shell)
  /-- The process called `exit`. -/
  | exited (status : Nat) (s : Shell)
  /-- The call to `execvp` succeeded: the process now runs the program. -/
  | replaced (s : Shell)
  /-- The process was terminated by a signal it raised itself. -/
  | killed (sig : Signal) (s : Shell)
  deriving DecidableEq, Repr

/-- What a `waitpid` call returned. -/
inductive WaitResult where
  /-- The pid was returned and `status` filled in. -/
  | reaped (status : Nat)
  /-- The call returned 0 (`WNOHANG`, nothing to collect); `status` is untouched. -/
  | nothing
  /-- The call returned -1 with this `errno`. -/
  | failed (errno : Nat)
  deriving DecidableEq, Repr

/-- Append one call to the trace. -/
def Shell.emit (s : Shell) (e : Event) : Shell :=
  { s with trace := s.trace ++ [e] }

/-- The call `alarm(seconds)`: zero cancels the pending alarm, any other value arms it. -/
def alarm (seconds : Nat) (s : Shell) : Shell :=
  { s with timer := if seconds = 0 then none else some seconds,
           trace := s.trace ++ [.alarm seconds] }

/-- The assignment `foreground_pid = pid`. -/
def storeForeground (pid : Int) (s : Shell) : Shell :=
  { s with foreground_pid := pid, trace := s.trace ++ [.storeForeground pid] }

/-- The `sys/wait.h` status decoding: the low seven bits are the terminating signal. -/
def WTERMSIG (status : Nat) : Nat := status % 128

/-- The `sys/wait.h` status decoding: terminated by a signal. -/
def WIFSIGNALED (status : Nat) : Bool := WTERMSIG status != 0 && WTERMSIG status != 127

/-- The number of `SIGINT`. -/
def SIGINT_NUMBER : Nat := 2

/-- The handler `void alarm_handler(int signum)` (lines 34-48). `kill_errno` is what
`kill` would answer: `none` for success, `some e` for -1 with `errno = e`. -/
def alarm_handler (kill_errno : Option Nat) (s : Shell) : Shell :=
  let s1 :=
    if s.foreground_pid > 0 then
      let s2 := s.emit (.printTimedOut s.foreground_pid)
      let s3 := s2.emit (.kill s.foreground_pid .SIGKILL)
      match kill_errno with
      | some e =>
        if e ≠ ESRCH then s3.emit (.perror (some "kill failed in alarm_handler".toList))
        else s3
      | none => s3
    else s
  s1.emit (.signal .SIGALRM .alarm_handler)

/-- Expiry of the timer: the pending alarm is consumed and the handler installed for
`SIGALRM` runs. -/
def deliver_SIGALRM (kill_errno : Option Nat) (s : Shell) : Shell :=
  alarm_handler kill_errno { s with timer := none }

/-- Line 231: `while (waitpid(-1, NULL, WNOHANG) > 0);` when `reapable` children have
already exited: that many calls return a pid, one more returns 0 or -1. -/
def reap_sweep : Nat → Shell → Shell
  | 0, s => s.emit (.waitpid (-1) true)
  | k + 1, s => reap_sweep k (s.emit (.waitpid (-1) true))

/-- What the kernel answers during one call of `execute_single_command`. -/
structure SingleOs where
  /-- Return value of `fork` in the process we follow. -/
  fork_ret : Int
  /-- In the child: `none` when `execvp` succeeds, else its `errno`. -/
  exec_errno : Option Nat
  /-- In the child, after a failed `execvp`: `none` when `perror` (line 223) leaves
  `errno` as it is, `some e` when it overwrites it with `e`. -/
  perror_errno : Option Nat
  /-- Background parent: children that have already exited. -/
  reapable : Nat
  /-- Foreground parent: `some k` when the 10-second timer expires during the
  blocking wait, `k` being the answer to the handler's `kill`. -/
  timeout : Option (Option Nat)
  /-- Foreground parent: result of `waitpid(pid, &status, 0)`. -/
  wait1 : WaitResult
  /-- Foreground parent: result of the follow-up `waitpid(pid, &status, WNOHANG)`. -/
  wait2 : WaitResult
  /-- Foreground parent: the indeterminate initial content of `status`. -/
  status0 : Nat

/-- The function
`void execute_single_command(char *arguments[], int arg_count, bool is_background)`
(lines 201-261). In the child, `execvp(arguments[0], arguments)` reads the string
`arguments[0]` points to: when that pointer is `NULL` the child dies of `SIGSEGV`
inside the call. After a failed `execvp` the exit code is computed from `errno` as it
is after `perror` has run. -/
def execute_single_command (arguments : ArgArray) (_arg_count : Nat) (is_background : Bool)
    (os : SingleOs) (s : Shell) : Outcome :=
  let pid := os.fork_ret
  let s := s.emit (.fork pid)
  if pid < 0 then
    .returned (s.emit (.perror (some "fork failed".toList)))
  else if pid = 0 then
    let s := alarm 0 s
    let s := s.emit (.signal .SIGALRM .SIG_DFL)
    let s := if !is_background then s.emit (.signal .SIGINT .SIG_DFL) else s
    let s := s.emit (.execvp (firstArg arguments) arguments)
    match firstArg arguments with
    | none => .killed .SIGSEGV s
    | some _ =>
      match os.exec_errno with
      | none => .replaced s
      | some exec_errno =>
        let s := s.emit (.perror (firstArg arguments))
        let errno := os.perror_errno.getD exec_errno
        let code := if errno = ENOENT then 127 else 1
        .exited code (s.emit (.exit code))
  else
    if is_background then
      let s := s.emit (.printBackgroundJob pid)
      .returned (reap_sweep os.reapable s)
    else
      let s := storeForeground pid s
      let s := alarm 10 s
      let s := s.emit (.waitpid pid false)
      let s := match os.timeout with
        | some k => deliver_SIGALRM k s
        | none => s
      let r : Shell × Nat :=
        match os.wait1 with
        | .reaped st => (s, st)
        | .nothing => (s, os.status0)
        | .failed errno =>
          if errno = EINTR then
            (s.emit (.waitpid pid true),
              match os.wait2 with
              | .reaped st => st
              | _ => os.status0)
          else (s.emit (.perror (some "waitpid error".toList)), os.status0)
      let s := alarm 0 r.1
      let s := storeForeground 0 s
      let status := r.2
      if WIFSIGNALED status && WTERMSIG status == SIGINT_NUMBER then
        .returned (s.emit .printNewline)
      else .returned s

/-- What the kernel answers during one call of `execute_pipe`. -/
structure PipeOs where
  /-- Result of `pipe`: `none` when it returns -1, else the read and write descriptors. -/
  pipe_ret : Option (Nat × Nat)
  /-- Return value of the first `fork` in the process we follow. -/
  fork1 : Int
  /-- In the first child: `none` when `execvp` succeeds, else its `errno`. -/
  exec1_errno : Option Nat
  /-- Return value of the second `fork`. -/
  fork2 : Int
  /-- In the second child: `none` when `execvp` succeeds, else its `errno`. -/
  exec2_errno : Option Nat

/-- The descriptor `STDIN_FILENO`. -/
def STDIN_FILENO : Nat := 0

/-- The descriptor `STDOUT_FILENO`. -/
def STDOUT_FILENO : Nat := 1

/-- Lines 166-172 and 183-189: what either child of the pipeline does once its
stream is redirected. Line 337 lets `main` call `execute_pipe` only with a non-`NULL`
first element in both lists, and the exit code does not depend on `errno`. -/
def pipe_child_exec (args : ArgArray) (exec_errno : Option Nat) (s : Shell) : Outcome :=
  let s := s.emit (.signal .SIGINT .SIG_DFL)
  let s := alarm 0 s
  let s := s.emit (.signal .SIGALRM .SIG_DFL)
  let s := s.emit (.execvp (firstArg args) args)
  match exec_errno with
  | none => .replaced s
  | some _ =>
    let s := s.emit (.perror (firstArg args))
    .exited 1 (s.emit (.exit 1))

/-- The function
`void execute_pipe(char *cmd1_args[], char *cmd2_args[], bool is_background)`
(lines 145-199). -/
def execute_pipe (cmd1_args cmd2_args : ArgArray) (_is_background : Bool)
    (os : PipeOs) (s : Shell) : Outcome :=
  let s := s.emit (.pipe os.pipe_ret)
  match os.pipe_ret with
  | none => .returned (s.emit (.perror (some "pipe failed".toList)))
  | some (rd, wr) =>
    let pid1 := os.fork1
    let s := s.emit (.fork pid1)
    if pid1 < 0 then .returned (s.emit (.perror (some "fork cmd1 failed".toList)))
    else if pid1 = 0 then
      let s := s.emit (.close rd)
      let s := s.emit (.dup2 wr STDOUT_FILENO)
      let s := s.emit (.close wr)
      pipe_child_exec cmd1_args os.exec1_errno s
    else
      let pid2 := os.fork2
      let s := s.emit (.fork pid2)
      if pid2 < 0 then .returned (s.emit (.perror (some "fork cmd2 failed".toList)))
      else if pid2 = 0 then
        let s := s.emit (.close wr)
        let s := s.emit (.dup2 rd STDIN_FILENO)
        let s := s.emit (.close rd)
        pipe_child_exec cmd2_args os.exec2_errno s
      else
        let s := s.emit (.close rd)
        let s := s.emit (.close wr)
        let s := s.emit (.waitpid pid1 false)
        let s := s.emit (.waitpid pid2 false)
        .returned s

/-- The state and trace an outcome ends with. -/
def Outcome.shell : Outcome → Shell
  | .returned s => s
  | .exited _ s => s
  | .replaced s => s
  | .killed _ s => s

/-- A call that arms the countdown timer: `alarm` with a nonzero argument. -/
def Event.armsTimer : Event → Bool
  | .alarm n => n != 0
  | _ => false

/-- A store to the global `foreground_pid`. -/
def Event.writesForeground : Event → Bool
  | .storeForeground _ => true
  | _ => false

/-- A terminate request. -/
def Event.isKill : Event → Bool
  | .kill _ _ => true
  | _ => false

/-- The shell at the top of a loop iteration: slot empty, timer disarmed. -/
def idle (trace : List Event) : Shell :=
  { foreground_pid := 0, timer := none, trace := trace }

/-- A small environment for concrete runs: `HOME=/home/u`, `E=` (set, empty),
`AMP=&`, everything else unset. -/
def sampleEnv : Env := fun name =>
  if name = "HOME".toList then some "/home/u".toList
  else if name = "E".toList then some []
  else if name = "AMP".toList then some "&".toList
  else none

/-- A line of 130 one-letter tokens. -/
def longLine : CStr := (List.replicate 130 ['x', ' ']).flatten

/-- A fresh 128-slot argument array, all `NULL`. -/
def emptyArgs : ArgArray := List.replicate MAX_COMMAND_LINE_ARGS none

/-- An array slot list holds exactly `toks` followed by the `NULL` terminator. -/
def HoldsArgs (a : ArgArray) (n : Nat) (toks : List CStr) : Prop :=
  n = toks.length ∧ a.take n = toks.map some ∧ a[n]? = some none

instance (a : ArgArray) (n : Nat) (toks : List CStr) : Decidable (HoldsArgs a n toks) :=
  inferInstanceAs (Decidable (_ ∧ _ ∧ _))

/-! ## Auxiliary definitions used in the proofs -/

/-- The decision `dispatch` takes, read off the token list. -/
def dispatchOn (toks : List CStr) (rest : ArgArray) (is_background : Bool) : Dispatch :=
  match toks with
  | [] => .single (none :: rest) 0 is_background
  | t :: ts =>
    if t = "exit".toList then .builtin .exits
    else if t ∈ builtinNames then .builtin .handled
    else if "|".toList ∈ ts ∧ t ≠ "|".toList then
      if ((t :: ts).dropWhile notPipe).drop 1 = [] then .invalidPipe
      else .pipe (((t :: ts).takeWhile notPipe).map some ++ [none])
        ((((t :: ts).dropWhile notPipe).drop 1).map some ++ [none]) is_background
    else .single ((t :: ts).map some ++ none :: rest) (t :: ts).length is_background

/-- No call in the list arms the timer or stores to `foreground_pid`. -/
def quiet (evs : List Event) : Bool :=
  evs.all (fun e => !e.armsTimer && !e.writesForeground)

/-- The calls one run of `alarm_handler` makes when the slot holds `fg`. -/
def handlerEvents (kill_errno : Option Nat) (fg : Int) : List Event :=
  (alarm_handler kill_errno { foreground_pid := fg, timer := none, trace := [] }).trace

/-- The calls of the foreground path between the blocking `waitpid` and `alarm(0)`:
the handler's, when the timer expires, and the follow-up of a failed wait. -/
def fgMid (pid : Int) (timeout : Option (Option Nat)) (w1 : WaitResult) : List Event :=
  (match timeout with
    | some k => handlerEvents k pid
    | none => []) ++
  (match w1 with
    | .failed e =>
      if e = EINTR then [Event.waitpid pid true]
      else [Event.perror (some "waitpid error".toList)]
    | _ => [])

/-- The content of `status` when line 256 inspects it. -/
def fgStatus (w1 w2 : WaitResult) (status0 : Nat) : Nat :=
  match w1 with
  | .reaped st => st
  | .nothing => status0
  | .failed e =>
    if e = EINTR then
      match w2 with
      | .reaped st => st
      | _ => status0
    else status0

/-- The calls of the foreground path after the slot is cleared. -/
def fgTail (status : Nat) : List Event :=
  if WIFSIGNALED status && WTERMSIG status == SIGINT_NUMBER then [Event.printNewline] else []

/-- A foreground run that times out: child 100 is killed by the handler, the blocking
wait fails with `EINTR` and the follow-up reaps status 9. -/
def timedOutOs : SingleOs :=
  { fork_ret := 100, exec_errno := none, perror_errno := none, reapable := 0,
    timeout := some none,
    wait1 := .failed EINTR, wait2 := .reaped 9, status0 := 0 }

/-- Replays a list of calls from the slot value `fg`: every `kill` in it is a
`SIGKILL` aimed at the positive pid the slot holds at that moment. -/
def killsTargetSlot : Int → List Event → Bool
  | _, [] => true
  | _, .storeForeground p :: es => killsTargetSlot p es
  | fg, .kill p sig :: es =>
    decide (p = fg ∧ 0 < fg ∧ sig = Signal.SIGKILL) && killsTargetSlot fg es
  | fg, _ :: es => killsTargetSlot fg es

/-- No call in the list is a `kill` or a store to the slot. -/
def noKillNoStore (evs : List Event) : Bool :=
  evs.all (fun e => !e.isKill && !e.writesForeground)

/-! ## Lemmas on splitting and `strtok` -/

theorem splitOnP_takeWhile_dropWhile (p : Char → Bool) (s : CStr) :
    s.splitOnP p = s.takeWhile (fun x => !p x) ::
      (match s.dropWhile (fun x => !p x) with
       | [] => []
       | _ :: r => r.splitOnP p) := by
  induction s with
  | nil => simp
  | cons c cs ih =>
    rw [List.splitOnP_cons]
    by_cases hc : p c = true
    · simp [hc]
    · simp only [hc, Bool.false_eq_true, if_false]
      rw [ih]
      simp [List.modifyHead, hc]

theorem pending_strtok (s : CStr) : pending (strtok s) = lineTokens s := by
  induction s with
  | nil => simp [strtok, pending, lineTokens]
  | cons c cs ih =>
    by_cases hc : delimiters c = true
    · have h1 : strtok (c :: cs) = strtok cs := by
        simp [strtok, List.dropWhile_cons, hc]
      have h2 : lineTokens (c :: cs) = lineTokens cs := by
        simp [lineTokens, List.splitOnP_cons, hc]
      rw [h1, h2, ih]
    · have h1 : strtok (c :: cs) =
          some ((c :: cs).takeWhile (fun x => !delimiters x),
            ((c :: cs).dropWhile (fun x => !delimiters x)).drop 1) := by
        simp [strtok, List.dropWhile_cons, hc]
      rw [h1]
      simp only [pending]
      conv_rhs => rw [lineTokens, splitOnP_takeWhile_dropWhile]
      have hne : ((c :: cs).takeWhile (fun x => !delimiters x)).isEmpty = false := by
        simp [List.takeWhile_cons, hc]
      rw [List.filter_cons]
      simp only [hne, Bool.not_false, if_true]
      congr 1
      cases hd : (c :: cs).dropWhile (fun x => !delimiters x) with
      | nil => simp [lineTokens]
      | cons d r => simp [lineTokens]

theorem restLen_strtok (s : CStr) : restLen (strtok s) ≤ s.length := by
  induction s with
  | nil => simp [strtok, restLen]
  | cons c cs ih =>
    by_cases hc : delimiters c = true
    · have h1 : strtok (c :: cs) = strtok cs := by
        simp [strtok, List.dropWhile_cons, hc]
      rw [h1]
      simp only [List.length_cons]
      omega
    · have h1 : strtok (c :: cs) =
          some ((c :: cs).takeWhile (fun x => !delimiters x),
            ((c :: cs).dropWhile (fun x => !delimiters x)).drop 1) := by
        simp [strtok, List.dropWhile_cons, hc]
      rw [h1]
      simp only [restLen, List.length_drop, List.length_cons]
      have h2 : (List.dropWhile (fun x => !delimiters x) (c :: cs)).length ≤ cs.length := by
        simp only [List.dropWhile_cons, hc, Bool.not_false, if_true]
        exact (List.dropWhile_sublist _).length_le
      omega

/-! ## The tokenizer loop in closed form -/

theorem set_take_succ (a : ArgArray) (i : Nat) (v : Option CStr) (h : i < a.length) :
    (a.set i v).take (i + 1) = a.take i ++ [v] := by
  rw [List.set_eq_take_append_cons_drop, if_pos h]
  rw [List.take_append_eq_append_take]
  simp [List.length_take, Nat.min_eq_left (Nat.le_of_lt h)]

theorem set_drop_succ (a : ArgArray) (i k : Nat) (v : Option CStr) :
    (a.set i v).drop (i + 1 + k) = a.drop (i + 1 + k) := by
  apply List.ext_getElem?
  intro j
  simp only [List.getElem?_drop]
  rw [List.getElem?_set_ne]
  omega

theorem tokenizeLoop_closed (env : Env) (fuel : Nat) :
    ∀ (token : Option (CStr × CStr)) (i : Nat) (arguments : ArgArray) (warned : List CStr),
      restLen token < fuel → i ≤ MAX_COMMAND_LINE_ARGS - 1 →
      MAX_COMMAND_LINE_ARGS ≤ arguments.length →
      tokenizeLoop env fuel token i arguments warned =
        .ok (i + (((pending token).filterMap (expandToken env)).take
                (MAX_COMMAND_LINE_ARGS - 1 - i)).length,
             arguments.take i ++
               (((pending token).filterMap (expandToken env)).take
                 (MAX_COMMAND_LINE_ARGS - 1 - i)).map some ++
               arguments.drop (i + (((pending token).filterMap (expandToken env)).take
                 (MAX_COMMAND_LINE_ARGS - 1 - i)).length),
             warned ++ loopWarnings env (pending token) i) := by
  induction fuel with
  | zero => intro token i arguments warned h; omega
  | succ fuel ih =>
    intro token i arguments warned hfuel hi hlen
    cases token with
    | none => simp [tokenizeLoop, pending, loopWarnings]
    | some tr =>
      obtain ⟨tok, rest⟩ := tr
      have hrest : restLen (strtok rest) < fuel := by
        have := restLen_strtok rest
        simp only [restLen] at hfuel
        omega
      simp only [MAX_COMMAND_LINE_ARGS] at hi hlen ⊢
      by_cases hlt : i < 127
      · have hw : ∀ v, writeArg arguments i v = .ok (arguments.set i v) := by
          intro v
          simp only [writeArg]
          rw [if_pos (by omega)]
        have hset : ∀ v, 128 ≤ (arguments.set i v).length := by
          intro v; simpa using hlen
        have hk : 127 - i = (127 - (i + 1)) + 1 := by omega
        have hstep : ∀ v, expandToken env tok = some v →
            tokenizeLoop env fuel (strtok rest) (i + 1) (arguments.set i (some v)) warned =
              .ok (i + (((pending (some (tok, rest))).filterMap (expandToken env)).take
                      (127 - i)).length,
                   arguments.take i ++
                     (((pending (some (tok, rest))).filterMap (expandToken env)).take
                       (127 - i)).map some ++
                     arguments.drop (i + (((pending (some (tok, rest))).filterMap
                       (expandToken env)).take (127 - i)).length),
                   warned ++ loopWarnings env (pending (some (tok, rest))) i) := by
          intro v hv
          have h := ih (strtok rest) (i + 1) (arguments.set i (some v)) warned hrest
            (by simp only [MAX_COMMAND_LINE_ARGS]; omega)
            (by simp only [MAX_COMMAND_LINE_ARGS]; exact hset _)
          simp only [MAX_COMMAND_LINE_ARGS] at h
          rw [h, pending_strtok]
          simp only [pending, List.filterMap_cons, hv, loopWarnings, MAX_COMMAND_LINE_ARGS]
          rw [if_pos (by omega), hk, List.take_succ_cons]
          simp only [List.length_cons, List.map_cons]
          rw [set_take_succ _ _ _ (by omega), set_drop_succ]
          have e1 : i + 1 + (List.take (127 - (i + 1))
              (List.filterMap (expandToken env) (lineTokens rest))).length =
              i + ((List.take (127 - (i + 1))
              (List.filterMap (expandToken env) (lineTokens rest))).length + 1) := by omega
          rw [e1]
          simp [List.append_assoc]
        have hskip : expandToken env tok = none →
            tokenizeLoop env fuel (strtok rest) i arguments (warned ++ [tok.drop 1]) =
              .ok (i + (((pending (some (tok, rest))).filterMap (expandToken env)).take
                      (127 - i)).length,
                   arguments.take i ++
                     (((pending (some (tok, rest))).filterMap (expandToken env)).take
                       (127 - i)).map some ++
                     arguments.drop (i + (((pending (some (tok, rest))).filterMap
                       (expandToken env)).take (127 - i)).length),
                   warned ++ loopWarnings env (pending (some (tok, rest))) i) := by
          intro hv
          have h := ih (strtok rest) i arguments (warned ++ [tok.drop 1]) hrest
            (by simp only [MAX_COMMAND_LINE_ARGS]; omega)
            (by simp only [MAX_COMMAND_LINE_ARGS]; exact hlen)
          simp only [MAX_COMMAND_LINE_ARGS] at h
          rw [h, pending_strtok]
          simp only [pending, List.filterMap_cons, hv, loopWarnings, MAX_COMMAND_LINE_ARGS]
          rw [if_pos (by omega)]
          simp [List.append_assoc]
        rw [tokenizeLoop]
        simp only [MAX_COMMAND_LINE_ARGS]
        rw [if_pos hlt]
        by_cases hd : tok.head? = some '$'
        · rw [if_pos hd]
          cases hv : env (tok.drop 1) with
          | none =>
            simp only []
            exact hskip (by rw [expandToken, if_pos hd, hv])
          | some v =>
            simp only [hw]
            exact hstep v (by rw [expandToken, if_pos hd, hv])
        · rw [if_neg hd]
          simp only [hw]
          exact hstep tok (by rw [expandToken, if_neg hd])
      · have hi127 : i = 127 := by omega
        subst hi127
        simp [tokenizeLoop, MAX_COMMAND_LINE_ARGS, loopWarnings, pending]

/-! ## `tokenize` in closed form -/

theorem set_after_map (vals : List CStr) (rest : ArgArray) (v : Option CStr)
    (hrest : rest ≠ []) :
    (vals.map some ++ rest).set vals.length v = vals.map some ++ v :: rest.drop 1 := by
  induction vals with
  | nil =>
    cases rest with
    | nil => exact absurd rfl hrest
    | cons r rs => simp
  | cons a l ih => simpa using ih

theorem tokenize_closed (env : Env) (line : CStr) (arguments : ArgArray)
    (harr : MAX_COMMAND_LINE_ARGS ≤ arguments.length) :
    tokenize env line arguments =
      .ok (((expandedLine env line).take (MAX_COMMAND_LINE_ARGS - 1)).length,
        ((expandedLine env line).take (MAX_COMMAND_LINE_ARGS - 1)).map some ++
          none :: arguments.drop
            (((expandedLine env line).take (MAX_COMMAND_LINE_ARGS - 1)).length + 1),
        loopWarnings env (lineTokens line) 0) := by
  have h := tokenizeLoop_closed env (line.length + 2) (strtok line) 0 arguments []
    (by have := restLen_strtok line; omega) (by simp [MAX_COMMAND_LINE_ARGS]) harr
  rw [pending_strtok] at h
  simp only [Nat.sub_zero, Nat.zero_add, List.take_zero, List.nil_append] at h
  rw [tokenize, h]
  simp only [expandedLine]
  generalize hv : List.take (MAX_COMMAND_LINE_ARGS - 1)
    (List.filterMap (expandToken env) (lineTokens line)) = vals
  have hvl : vals.length ≤ 127 := by
    rw [← hv]; simp [MAX_COMMAND_LINE_ARGS]
  have hlt : vals.length < (List.map some vals ++ List.drop vals.length arguments).length := by
    simp only [List.length_append, List.length_map, List.length_drop]
    simp only [MAX_COMMAND_LINE_ARGS] at harr
    omega
  simp only [writeArg]
  rw [if_pos hlt]
  simp only []
  congr 2
  have hne : List.drop vals.length arguments ≠ [] := by
    intro hnil
    have := congrArg List.length hnil
    simp only [List.length_drop, List.length_nil, MAX_COMMAND_LINE_ARGS] at this harr
    omega
  rw [set_after_map _ _ _ hne, List.drop_drop]

theorem holdsArgs_closed (toks : List CStr) (rest : ArgArray) :
    HoldsArgs (toks.map some ++ none :: rest) toks.length toks := by
  refine ⟨rfl, ?_, ?_⟩
  · rw [List.take_append_eq_append_take]
    simp
  · rw [List.getElem?_append_right (by simp)]
    simp

theorem tokenize_holdsArgs (env : Env) (line : CStr) (arguments : ArgArray)
    (harr : MAX_COMMAND_LINE_ARGS ≤ arguments.length) :
    ∃ arguments1 warned,
      tokenize env line arguments =
        .ok (((expandedLine env line).take (MAX_COMMAND_LINE_ARGS - 1)).length, arguments1,
          warned) ∧
      HoldsArgs arguments1 ((expandedLine env line).take (MAX_COMMAND_LINE_ARGS - 1)).length
        ((expandedLine env line).take (MAX_COMMAND_LINE_ARGS - 1)) :=
  ⟨_, _, tokenize_closed env line arguments harr, holdsArgs_closed _ _⟩

/-! ## C1 and C10: the tokenizer -/

/-- C1: when the expanded line has at most 127 tokens, `tokenize` on the 128-slot
array returns their number and leaves in the array, in order, exactly the expanded
tokens followed by the terminator: the delimiter-separated tokens of the line, each
`$NAME` token replaced by the value of `NAME` when set and contributing no slot at
all when unset, every other token unchanged. -/
theorem tokenize_yields_expanded_line (env : Env) (line : CStr) (arguments : ArgArray)
    (harr : arguments.length = MAX_COMMAND_LINE_ARGS)
    (hfit : (expandedLine env line).length ≤ MAX_COMMAND_LINE_ARGS - 1) :
    (∃ warned, tokenize env line arguments =
      .ok ((expandedLine env line).length,
        (expandedLine env line).map some ++
          none :: arguments.drop ((expandedLine env line).length + 1), warned)) ∧
    expandedLine env line =
      ((line.splitOnP (fun c => delimiters c)).filter (fun t => !t.isEmpty)).filterMap
        (fun tok => if tok.head? = some '$' then env (tok.drop 1) else some tok) := by
  refine ⟨?_, rfl⟩
  have h := tokenize_closed env line arguments (le_of_eq harr.symm)
  rw [List.take_of_length_le hfit] at h
  exact ⟨_, h⟩

/-- C1, a concrete run: `echo  $HOME<TAB>$NOPE x` with `HOME=/home/u` and `NOPE`
unset yields `echo`, `/home/u`, `x`. -/
theorem tokenize_yields_expanded_line_witness :
    emptyArgs.length = MAX_COMMAND_LINE_ARGS ∧
    (expandedLine sampleEnv "echo  $HOME\t$NOPE x".toList).length ≤ MAX_COMMAND_LINE_ARGS - 1 ∧
    expandedLine sampleEnv "echo  $HOME\t$NOPE x".toList =
      ["echo".toList, "/home/u".toList, "x".toList] ∧
    ((∃ warned, tokenize sampleEnv "echo  $HOME\t$NOPE x".toList emptyArgs =
      .ok ((expandedLine sampleEnv "echo  $HOME\t$NOPE x".toList).length,
        (expandedLine sampleEnv "echo  $HOME\t$NOPE x".toList).map some ++
          none :: emptyArgs.drop
            ((expandedLine sampleEnv "echo  $HOME\t$NOPE x".toList).length + 1), warned)) ∧
    expandedLine sampleEnv "echo  $HOME\t$NOPE x".toList =
      (("echo  $HOME\t$NOPE x".toList.splitOnP (fun c => delimiters c)).filter
        (fun t => !t.isEmpty)).filterMap
        (fun tok => if tok.head? = some '$' then sampleEnv (tok.drop 1) else some tok)) :=
  ⟨by decide, by decide, by decide,
    tokenize_yields_expanded_line sampleEnv "echo  $HOME\t$NOPE x".toList emptyArgs
      (by decide) (by decide)⟩

/-- C10: on the 128-slot array `tokenize` always returns, without any out-of-range
access, a count `n ≤ 127`; slots `0..n-1` hold strings, slot `n` is the terminator,
slots above `n` are untouched and the array still has 128 slots; the strings are the
first 127 expanded tokens, so a longer expansion is cut to exactly its first 127. -/
theorem tokenize_bounded (env : Env) (line : CStr) (arguments : ArgArray)
    (harr : arguments.length = MAX_COMMAND_LINE_ARGS) :
    ∃ n arguments1 warned,
      tokenize env line arguments = .ok (n, arguments1, warned) ∧
      n ≤ MAX_COMMAND_LINE_ARGS - 1 ∧
      arguments1.length = MAX_COMMAND_LINE_ARGS ∧
      (∀ k, k < n → ∃ s, arguments1[k]? = some (some s)) ∧
      arguments1[n]? = some none ∧
      (∀ k, n < k → arguments1[k]? = arguments[k]?) ∧
      arguments1.take n = ((expandedLine env line).take (MAX_COMMAND_LINE_ARGS - 1)).map some ∧
      (MAX_COMMAND_LINE_ARGS - 1 < (expandedLine env line).length →
        n = MAX_COMMAND_LINE_ARGS - 1) := by
  have h := tokenize_closed env line arguments (le_of_eq harr.symm)
  generalize hv : (expandedLine env line).take (MAX_COMMAND_LINE_ARGS - 1) = vals at h
  have hvl : vals.length ≤ MAX_COMMAND_LINE_ARGS - 1 := by
    rw [← hv]; simp
  have hH := holdsArgs_closed vals (arguments.drop (vals.length + 1))
  refine ⟨_, _, _, h, hvl, ?_, ?_, hH.2.2, ?_, hH.2.1, ?_⟩
  · simp only [List.length_append, List.length_map, List.length_cons, List.length_drop]
    simp only [MAX_COMMAND_LINE_ARGS] at harr hvl ⊢
    omega
  · intro k hk
    refine ⟨vals[k], ?_⟩
    rw [List.getElem?_append_left (by simpa using hk)]
    simp [List.getElem?_map, List.getElem?_eq_getElem hk]
  · intro k hk
    rw [List.getElem?_append_right (by simp; omega)]
    obtain ⟨j, rfl⟩ : ∃ j, k = vals.length + 1 + j := ⟨k - (vals.length + 1), by omega⟩
    simp only [List.length_map]
    have e : vals.length + 1 + j - vals.length = j + 1 := by omega
    rw [e, List.getElem?_cons_succ, List.getElem?_drop]
  · intro hlong
    rw [← hv, List.length_take]
    omega

/-- C10, a concrete run on the 128-slot array: a line of 130 tokens is cut to the
first 127, slot 127 holding the terminator. -/
theorem tokenize_bounded_witness :
    emptyArgs.length = MAX_COMMAND_LINE_ARGS ∧
    (expandedLine sampleEnv longLine).length = 130 ∧
    (tokenize sampleEnv longLine emptyArgs).map (fun r => (r.1, r.2.1.drop 126)) =
      .ok (127, [some "x".toList, none]) ∧
    ∃ n arguments1 warned,
      tokenize sampleEnv longLine emptyArgs = .ok (n, arguments1, warned) ∧
      n ≤ MAX_COMMAND_LINE_ARGS - 1 ∧
      arguments1.length = MAX_COMMAND_LINE_ARGS ∧
      (∀ k, k < n → ∃ s, arguments1[k]? = some (some s)) ∧
      arguments1[n]? = some none ∧
      (∀ k, n < k → arguments1[k]? = emptyArgs[k]?) ∧
      arguments1.take n =
        ((expandedLine sampleEnv longLine).take (MAX_COMMAND_LINE_ARGS - 1)).map some ∧
      (MAX_COMMAND_LINE_ARGS - 1 < (expandedLine sampleEnv longLine).length →
        n = MAX_COMMAND_LINE_ARGS - 1) :=
  ⟨by decide, by decide, by decide,
    tokenize_bounded sampleEnv longLine emptyArgs (by decide)⟩

/-! ## The main loop on an array that holds a token list -/

theorem HoldsArgs.eq_closed {a : ArgArray} {n : Nat} {toks : List CStr}
    (h : HoldsArgs a n toks) : a = toks.map some ++ none :: a.drop (n + 1) := by
  obtain ⟨_, h2, h3⟩ := h
  have hn : n < a.length := by
    by_contra hc
    rw [List.getElem?_eq_none (by omega)] at h3
    exact Option.noConfusion h3
  have hd : a.drop n = none :: a.drop (n + 1) := by
    rw [List.drop_eq_getElem_cons hn]
    congr 1
    rw [List.getElem?_eq_getElem hn] at h3
    exact Option.some.inj h3
  calc a = a.take n ++ a.drop n := (List.take_append_drop n a).symm
    _ = toks.map some ++ none :: a.drop (n + 1) := by rw [h2, hd]

theorem readArg_closed_last (init : List CStr) (last : CStr) (rest : ArgArray) :
    readArg ((init ++ [last]).map some ++ none :: rest) init.length = .ok (some last) := by
  have : ((init ++ [last]).map some ++ none :: rest)[init.length]? = some (some last) := by
    rw [List.map_append, List.append_assoc]
    rw [List.getElem?_append_right (by simp)]
    simp
  simp only [readArg, this]

theorem strip_background_closed (init : List CStr) (last : CStr) (rest : ArgArray) :
    strip_background ((init ++ [last]).map some ++ none :: rest) (init ++ [last]).length =
      if last = "&".toList then
        .ok (true, init.map some ++ none :: none :: rest, init.length)
      else
        .ok (false, (init ++ [last]).map some ++ none :: rest, (init ++ [last]).length) := by
  have hlen : (init ++ [last]).length - 1 = init.length := by simp
  rw [strip_background, if_pos (by simp), hlen, readArg_closed_last]
  simp only []
  by_cases hl : last = "&".toList
  · rw [if_pos hl, if_pos hl]
    have hw : writeArg ((init ++ [last]).map some ++ none :: rest) init.length none =
        .ok (init.map some ++ none :: none :: rest) := by
      rw [writeArg, if_pos (by simp)]
      congr 1
      rw [List.map_append, List.append_assoc]
      rw [set_after_map _ _ _ (by simp)]
      simp
    rw [hw]
  · rw [if_neg hl, if_neg hl]

theorem notPipe_eq_true {t : CStr} : notPipe t = true ↔ t ≠ "|".toList := by
  simp [notPipe]

theorem find_pipe_from_closed (toks : List CStr) (rest : ArgArray) (i : Nat) :
    find_pipe_from (toks.map some ++ none :: rest) i =
      .ok (if "|".toList ∈ toks then ((i + (toks.takeWhile notPipe).length : Nat) : Int)
        else -1) := by
  induction toks generalizing i with
  | nil => simp [find_pipe_from]
  | cons t ts ih =>
    rw [List.map_cons, List.cons_append, find_pipe_from]
    by_cases ht : t = "|".toList
    · subst ht
      simp [notPipe]
    · rw [if_neg ht, ih]
      have hne : ¬ ("|".toList = t) := fun h => ht h.symm
      have hnp : notPipe t = true := notPipe_eq_true.mpr ht
      simp only [List.mem_cons, hne, false_or, List.takeWhile_cons, hnp, if_true,
        List.length_cons]
      split
      · congr 2
        omega
      · rfl

theorem copy_cmd2_closed (toks : List CStr) (rest : ArgArray) :
    copy_cmd2 (toks.map some ++ none :: rest) = .ok (toks.map some ++ [none]) := by
  induction toks with
  | nil => simp [copy_cmd2]
  | cons t ts ih => simp [copy_cmd2, ih]

theorem execute_builtin_closed (t : CStr) (ts : List CStr) (rest : ArgArray) (n : Nat) :
    execute_builtin ((t :: ts).map some ++ none :: rest) n =
      if t = "exit".toList then .ok .exits
      else if t ∈ builtinNames then .ok .handled
      else .ok .notBuiltin := by
  simp [execute_builtin, readArg]

theorem execute_builtin_closed_nil (rest : ArgArray) (n : Nat) :
    execute_builtin (none :: rest) n = .ok .notBuiltin := by
  simp [execute_builtin, readArg]

theorem takeWhile_length_lt_of_mem (toks : List CStr) (h : "|".toList ∈ toks) :
    (toks.takeWhile notPipe).length < toks.length := by
  induction toks with
  | nil => simp at h
  | cons t ts ih =>
    by_cases ht : t = "|".toList
    · subst ht; simp [notPipe]
    · have hnp : notPipe t = true := notPipe_eq_true.mpr ht
      have hmem : "|".toList ∈ ts := by
        rcases List.mem_cons.mp h with h1 | h1
        · exact absurd h1.symm ht
        · exact h1
      simp only [List.takeWhile_cons, hnp, if_true, List.length_cons]
      have := ih hmem
      omega

theorem drop_takeWhile_length_succ (toks : List CStr) :
    toks.drop ((toks.takeWhile notPipe).length + 1) = (toks.dropWhile notPipe).drop 1 := by
  induction toks with
  | nil => simp
  | cons t ts ih =>
    by_cases hnp : notPipe t = true
    · simp only [List.takeWhile_cons, List.dropWhile_cons, hnp, if_true, List.length_cons,
        List.drop_succ_cons]
      exact ih
    · simp [List.takeWhile_cons, List.dropWhile_cons, hnp]

theorem take_takeWhile_length (toks : List CStr) :
    toks.take (toks.takeWhile notPipe).length = toks.takeWhile notPipe := by
  induction toks with
  | nil => simp
  | cons t ts ih =>
    by_cases hnp : notPipe t = true
    · simp only [List.takeWhile_cons, hnp, if_true, List.length_cons, List.take_succ_cons]
      rw [ih]
    · simp [List.takeWhile_cons, hnp]

theorem dispatch_closed (toks : List CStr) (rest : ArgArray) (is_background : Bool) :
    dispatch (toks.map some ++ none :: rest) toks.length is_background =
      .ok (dispatchOn toks rest is_background) := by
  cases toks with
  | nil =>
    simp only [List.map_nil, List.nil_append, List.length_nil]
    rw [dispatch, execute_builtin_closed_nil]
    simp [find_pipe, find_pipe_from, dispatchOn]
  | cons t ts =>
    rw [dispatch, execute_builtin_closed, dispatchOn]
    by_cases h1 : t = "exit".toList
    · simp [h1]
    · simp only [if_neg h1]
      by_cases h2 : t ∈ builtinNames
      · simp [h2]
      · simp only [if_neg h2]
        rw [find_pipe, find_pipe_from_closed]
        by_cases ht : t = "|".toList
        · subst ht
          simp [notPipe]
        · have hne : ¬ ("|".toList = t) := fun h => ht h.symm
          have hnp : notPipe t = true := notPipe_eq_true.mpr ht
          by_cases hp : "|".toList ∈ ts
          · have hmem : "|".toList ∈ t :: ts := List.mem_cons_of_mem _ hp
            have hlt := takeWhile_length_lt_of_mem (t :: ts) hmem
            have hpos : 0 < ((t :: ts).takeWhile notPipe).length := by
              simp [List.takeWhile_cons, hnp]
            generalize hk : ((t :: ts).takeWhile notPipe).length = k at hlt hpos
            rw [if_pos hmem, if_pos ⟨hp, ht⟩]
            simp only [Nat.zero_add]
            rw [if_pos (by omega)]
            simp only [Int.toNat_ofNat]
            have hsplit : (t :: ts).map some ++ none :: rest =
                ((t :: ts).take (k + 1)).map some ++
                  (((t :: ts).drop (k + 1)).map some ++ none :: rest) := by
              rw [← List.append_assoc, ← List.map_append, List.take_append_drop]
            have hdrop : List.drop (k + 1) ((t :: ts).map some ++ none :: rest) =
                ((t :: ts).drop (k + 1)).map some ++ none :: rest := by
              conv_lhs => rw [hsplit]
              rw [List.drop_left' (by
                simp only [List.length_map, List.length_take]
                omega)]
            have htake : List.take k ((t :: ts).map some ++ none :: rest) =
                ((t :: ts).take k).map some := by
              rw [List.take_append_of_le_length (by
                simp only [List.length_map]; omega)]
              rw [List.map_take]
            have hd2 : (t :: ts).drop (k + 1) = ((t :: ts).dropWhile notPipe).drop 1 := by
              rw [← hk]; exact drop_takeWhile_length_succ _
            have ht2 : (t :: ts).take k = (t :: ts).takeWhile notPipe := by
              rw [← hk]; exact take_takeWhile_length _
            rw [hdrop, htake, copy_cmd2_closed, hd2, ht2]
            simp only []
            have hc1 : (List.map some ((t :: ts).takeWhile notPipe) ++
                [none]).head? ≠ some none := by
              simp [List.takeWhile_cons, hnp]
            cases hd : List.drop 1 ((t :: ts).dropWhile notPipe) with
            | nil => simp
            | cons d ds => simp [hc1, hnp]
          · have hmem : ¬ ("|".toList ∈ t :: ts) := by
              simp only [List.mem_cons, hne, hp, or_self, not_false_eq_true]
            rw [if_neg hmem, if_neg (fun h => hp h.1)]
            simp

/-! ## C6: the background marker -/

/-- C6: on an array holding a non-empty token list, lines 309-315 set the background
flag exactly when the final token is `&`; then that one token is replaced by the
terminator and the count drops by one, otherwise array and count are unchanged. In
both cases every token before the final one, `&` or not, stays where it is. -/
theorem background_flag_iff_trailing_amp (arguments : ArgArray) (n : Nat) (toks : List CStr)
    (h : HoldsArgs arguments n toks) (hne : toks ≠ []) :
    ∃ flag arguments2 n2,
      strip_background arguments n = .ok (flag, arguments2, n2) ∧
      (flag = true ↔ toks.getLast? = some "&".toList) ∧
      (flag = true → n2 = n - 1 ∧ HoldsArgs arguments2 n2 toks.dropLast) ∧
      (flag = false → n2 = n ∧ arguments2 = arguments) ∧
      arguments2.take (n - 1) = toks.dropLast.map some := by
  obtain ⟨init, last, rfl⟩ : ∃ init last, toks = init ++ [last] :=
    ⟨toks.dropLast, toks.getLast hne, (List.dropLast_append_getLast hne).symm⟩
  have hcl := h.eq_closed
  have hn : n = (init ++ [last]).length := h.1
  generalize arguments.drop (n + 1) = rest at hcl
  subst hcl
  rw [hn, strip_background_closed]
  have hlen : (init ++ [last]).length - 1 = init.length := by simp
  by_cases hl : last = "&".toList
  · rw [if_pos hl]
    refine ⟨true, _, _, rfl, ?_, ?_, ?_, ?_⟩
    · simp [hl]
    · intro _
      rw [List.dropLast_concat]
      exact ⟨hlen.symm, holdsArgs_closed init _⟩
    · intro hf; exact absurd hf (by simp)
    · rw [hlen, List.dropLast_concat, List.take_append_eq_append_take]
      simp
  · rw [if_neg hl]
    refine ⟨false, _, _, rfl, ?_, ?_, ?_, ?_⟩
    · simp only [List.getLast?_concat, Option.some.injEq, hl]
      simp
    · intro hf; exact absurd hf (by simp)
    · intro _; exact ⟨rfl, rfl⟩
    · rw [hlen, List.dropLast_concat, List.map_append, List.append_assoc,
        List.take_append_eq_append_take]
      simp

/-- C6, concrete run: in `sleep & 5 &` only the final `&` is stripped. -/
theorem background_flag_iff_trailing_amp_witness :
    HoldsArgs [some "sleep".toList, some "&".toList, some "5".toList, some "&".toList, none]
      4 ["sleep".toList, "&".toList, "5".toList, "&".toList] ∧
    ∃ flag arguments2 n2,
      strip_background
        [some "sleep".toList, some "&".toList, some "5".toList, some "&".toList, none] 4 =
        .ok (flag, arguments2, n2) ∧
      (flag = true ↔
        ["sleep".toList, "&".toList, "5".toList, "&".toList].getLast? = some "&".toList) ∧
      (flag = true → n2 = 4 - 1 ∧
        HoldsArgs arguments2 n2 ["sleep".toList, "&".toList, "5".toList, "&".toList].dropLast) ∧
      (flag = false → n2 = 4 ∧ arguments2 =
        [some "sleep".toList, some "&".toList, some "5".toList, some "&".toList, none]) ∧
      arguments2.take (4 - 1) =
        ["sleep".toList, "&".toList, "5".toList, "&".toList].dropLast.map some :=
  ⟨by decide,
    background_flag_iff_trailing_amp _ 4 ["sleep".toList, "&".toList, "5".toList, "&".toList]
      (by decide) (by decide)⟩

/-! ## C2: pipe placement -/

theorem expandedLine_nil (env : Env) : expandedLine env [] = [] := by
  simp [expandedLine, lineTokens]

theorem main_iteration_closed (env : Env) (arguments : ArgArray) (command_line : CStr)
    (harr : arguments.length = MAX_COMMAND_LINE_ARGS)
    (hne : tokenizedLine env command_line ≠ []) :
    ∃ rest warned, main_iteration env arguments command_line =
      .ok (dispatchOn (commandTokens (tokenizedLine env command_line)) rest
          (hasBackgroundMarker (tokenizedLine env command_line)),
        (commandTokens (tokenizedLine env command_line)).map some ++ none :: rest,
        warned) := by
  have hcl : command_line ≠ [] := by
    intro e
    apply hne
    rw [e]
    simp [tokenizedLine, expandedLine_nil]
  rw [main_iteration, if_neg hcl]
  simp only []
  rw [tokenize_closed env _ arguments (le_of_eq harr.symm)]
  simp only []
  unfold tokenizedLine at hne ⊢
  generalize (expandedLine env (command_line.takeWhile (fun c => c != '\n'))).take
    (MAX_COMMAND_LINE_ARGS - 1) = toks at hne ⊢
  generalize List.drop (toks.length + 1) arguments = rest0
  rw [if_neg (by simpa using hne)]
  obtain ⟨init, last, rfl⟩ : ∃ init last, toks = init ++ [last] :=
    ⟨toks.dropLast, toks.getLast hne, (List.dropLast_append_getLast hne).symm⟩
  rw [strip_background_closed]
  by_cases hl : last = "&".toList
  · have hm : hasBackgroundMarker (init ++ [last]) = true := by
      simp [hasBackgroundMarker, hl]
    rw [if_pos hl]
    simp only []
    rw [dispatch_closed]
    simp only [commandTokens, hm, if_true, List.dropLast_concat]
    exact ⟨_, _, rfl⟩
  · have hm : hasBackgroundMarker (init ++ [last]) = false := by
      simp only [hasBackgroundMarker, List.getLast?_concat, Option.some.injEq,
        decide_eq_false_iff_not]
      exact hl
    rw [if_neg hl]
    simp only []
    rw [dispatch_closed]
    simp only [commandTokens, hm, Bool.false_eq_true, if_false]
    exact ⟨_, _, rfl⟩

theorem dispatchOn_pipe (toks : List CStr) (rest : ArgArray) (is_background : Bool)
    (hb : ∀ t, toks.head? = some t → ¬ isBuiltinName t)
    (hp : "|".toList ∈ toks) (hlead : toks.head? ≠ some "|".toList) :
    dispatchOn toks rest is_background =
      if (toks.dropWhile notPipe).drop 1 = [] then .invalidPipe
      else .pipe ((toks.takeWhile notPipe).map some ++ [none])
        (((toks.dropWhile notPipe).drop 1).map some ++ [none]) is_background := by
  cases toks with
  | nil => simp at hp
  | cons t ts =>
    have hnb := hb t rfl
    have h1 : ¬ t = "exit".toList := fun e => hnb (Or.inl e)
    have h2 : ¬ t ∈ builtinNames := fun e => hnb (Or.inr e)
    have ht : t ≠ "|".toList := fun e => hlead (by rw [e]; rfl)
    have hts : "|".toList ∈ ts := by
      rcases List.mem_cons.mp hp with e | e
      · exact absurd e.symm ht
      · exact e
    rw [dispatchOn, if_neg h1, if_neg h2, if_pos ⟨hts, ht⟩]

/-- A leading `|` is not rejected either: `| a` is handed to `execute_single_command`
with `|` as the program name. -/
theorem leading_pipe_is_launched :
    (main_iteration sampleEnv emptyArgs "| a\n".toList).map
        (fun r => (r.1, r.2.1.take 3)) =
      .ok (.single ([some "|".toList, some "a".toList] ++ List.replicate 126 none) 2 false,
        [some "|".toList, some "a".toList, none]) := by
  decide

/-! ## C8: what reaches the launcher -/

theorem lineTokens_ne_nil {line : CStr} {t : CStr} (h : t ∈ lineTokens line) : t ≠ [] := by
  simp only [lineTokens, List.mem_filter] at h
  intro e
  rw [e] at h
  simp at h

theorem mem_expandedLine_empty {env : Env} {line : CStr} {s : CStr}
    (h : s ∈ expandedLine env line) (hs : s = []) :
    ∃ t ∈ lineTokens line, t.head? = some '$' ∧ env (t.drop 1) = some [] := by
  simp only [expandedLine, List.mem_filterMap] at h
  obtain ⟨t, ht, hexp⟩ := h
  rw [expandToken] at hexp
  by_cases hd : t.head? = some '$'
  · rw [if_pos hd] at hexp
    exact ⟨t, ht, hd, by rw [hexp, hs]⟩
  · rw [if_neg hd] at hexp
    have := lineTokens_ne_nil ht
    exact absurd ((Option.some.inj hexp).trans hs) this

theorem firstArg_map_cons (t : CStr) (ts : List CStr) (rest : ArgArray) :
    firstArg ((t :: ts).map some ++ rest) = some t := by
  simp [firstArg]

theorem dispatchOn_launched (toks : List CStr) (rest : ArgArray) (is_background : Bool)
    (hne : toks ≠ []) :
    ∀ l ∈ (dispatchOn toks rest is_background).launched,
      ∃ s, firstArg l = some s ∧ s ∈ toks := by
  cases toks with
  | nil => exact absurd rfl hne
  | cons t ts =>
    intro l hl
    rw [dispatchOn] at hl
    split_ifs at hl with h1 h2 h3 h4
    · simp [Dispatch.launched] at hl
    · simp [Dispatch.launched] at hl
    · simp [Dispatch.launched] at hl
    · have hnp : notPipe t = true := notPipe_eq_true.mpr h3.2
      simp only [Dispatch.launched, List.mem_cons, List.mem_singleton, List.not_mem_nil,
        or_false] at hl
      rcases hl with rfl | rfl
      · refine ⟨t, ?_, List.mem_cons_self _ _⟩
        simp [List.takeWhile_cons, hnp, firstArg]
      · cases hd : List.drop 1 (List.dropWhile notPipe (t :: ts)) with
        | nil => exact absurd hd h4
        | cons d ds =>
          refine ⟨d, by simp [firstArg], ?_⟩
          have hmem : d ∈ List.drop 1 (List.dropWhile notPipe (t :: ts)) := by
            rw [hd]; exact List.mem_cons_self _ _
          exact (List.dropWhile_sublist _).subset (List.mem_of_mem_drop hmem)
    · simp only [Dispatch.launched, List.mem_singleton] at hl
      subst hl
      exact ⟨t, firstArg_map_cons _ _ _, List.mem_cons_self _ _⟩

/-- C8 as stated fails: with `E` set to the empty string the line `$E` makes the main
loop call `execute_single_command` with the empty string as first element. -/
theorem empty_value_reaches_launcher :
    sampleEnv "E".toList = some [] ∧
    (main_iteration sampleEnv emptyArgs "$E\n".toList).map
        (fun r => r.1.launched.map firstArg) = .ok [some []] := by
  refine ⟨by decide, by decide⟩

/-- C8 amended: for every line, environment and 128-slot array, one iteration of the
main loop returns, and unless the token list produced by `tokenize` is the single
token `&`, every argument list it hands to `execute_single_command` or `execute_pipe`
has a first element that is present and is one of the expanded tokens of the line;
that element is empty only when it is the value of a `$NAME` token whose variable is
set to the empty string. -/
theorem launcher_first_argument (env : Env) (arguments : ArgArray) (command_line : CStr)
    (harr : arguments.length = MAX_COMMAND_LINE_ARGS)
    (hamp : (expandedLine env (command_line.takeWhile (fun c => c != '\n'))).take
      (MAX_COMMAND_LINE_ARGS - 1) ≠ ["&".toList]) :
    ∃ d arguments1 warned,
      main_iteration env arguments command_line = .ok (d, arguments1, warned) ∧
      ∀ l ∈ d.launched, ∃ s, firstArg l = some s ∧
        s ∈ expandedLine env (command_line.takeWhile (fun c => c != '\n')) ∧
        (s = [] → ∃ t ∈ lineTokens (command_line.takeWhile (fun c => c != '\n')),
          t.head? = some '$' ∧ env (t.drop 1) = some []) := by
  rw [main_iteration]
  by_cases hcl : command_line = []
  · rw [if_pos hcl]
    exact ⟨_, _, _, rfl, by simp [Dispatch.launched]⟩
  · rw [if_neg hcl]
    simp only []
    rw [tokenize_closed env _ arguments (le_of_eq harr.symm)]
    simp only []
    generalize hline : command_line.takeWhile (fun c => c != '\n') = line at hamp ⊢
    generalize htoks : (expandedLine env line).take (MAX_COMMAND_LINE_ARGS - 1) = toks at hamp ⊢
    have hsub : ∀ s, s ∈ toks → s ∈ expandedLine env line := by
      intro s hs
      rw [← htoks] at hs
      exact List.mem_of_mem_take hs
    generalize List.drop (toks.length + 1) arguments = rest
    by_cases hnil : toks = []
    · subst hnil
      simp only [List.length_nil, if_true]
      exact ⟨_, _, _, rfl, by simp [Dispatch.launched]⟩
    · rw [if_neg (by simpa using hnil)]
      obtain ⟨init, last, rfl⟩ : ∃ init last, toks = init ++ [last] :=
        ⟨toks.dropLast, toks.getLast hnil, (List.dropLast_append_getLast hnil).symm⟩
      rw [strip_background_closed]
      by_cases hl : last = "&".toList
      · rw [if_pos hl]
        simp only []
        have hinit : init ≠ [] := by
          intro e
          apply hamp
          rw [e, hl]
          rfl
        rw [dispatch_closed]
        simp only []
        refine ⟨_, _, _, rfl, ?_⟩
        intro l hlm
        obtain ⟨s, hs1, hs2⟩ := dispatchOn_launched init _ true hinit l hlm
        have hs3 := hsub s (List.mem_append_left _ hs2)
        exact ⟨s, hs1, hs3, fun e => mem_expandedLine_empty hs3 e⟩
      · rw [if_neg hl]
        simp only []
        rw [dispatch_closed]
        simp only []
        refine ⟨_, _, _, rfl, ?_⟩
        intro l hlm
        obtain ⟨s, hs1, hs2⟩ := dispatchOn_launched _ _ false hnil l hlm
        have hs3 := hsub s hs2
        exact ⟨s, hs1, hs3, fun e => mem_expandedLine_empty hs3 e⟩

/-- C8 amended, concrete run: `ls $HOME | wc &`. -/
theorem launcher_first_argument_witness :
    emptyArgs.length = MAX_COMMAND_LINE_ARGS ∧
    (expandedLine sampleEnv ("ls $HOME | wc &\n".toList.takeWhile (fun c => c != '\n'))).take
      (MAX_COMMAND_LINE_ARGS - 1) ≠ ["&".toList] ∧
    (main_iteration sampleEnv emptyArgs "ls $HOME | wc &\n".toList).map
        (fun r => r.1.launched.map firstArg) = .ok [some "ls".toList, some "wc".toList] ∧
    ∃ d arguments1 warned,
      main_iteration sampleEnv emptyArgs "ls $HOME | wc &\n".toList =
        .ok (d, arguments1, warned) ∧
      ∀ l ∈ d.launched, ∃ s, firstArg l = some s ∧
        s ∈ expandedLine sampleEnv ("ls $HOME | wc &\n".toList.takeWhile (fun c => c != '\n')) ∧
        (s = [] →
          ∃ t ∈ lineTokens ("ls $HOME | wc &\n".toList.takeWhile (fun c => c != '\n')),
            t.head? = some '$' ∧ sampleEnv (t.drop 1) = some []) :=
  ⟨by decide, by decide, by decide,
    launcher_first_argument sampleEnv emptyArgs "ls $HOME | wc &\n".toList
      (by decide) (by decide)⟩

/-- The line `&` alone: the marker is stripped, the list is left empty, and
`execute_single_command` is called with `arguments[0] == NULL`. -/
theorem lone_amp_reaches_launcher :
    (main_iteration sampleEnv emptyArgs "&\n".toList).map
        (fun r => (r.1.launched.map firstArg, r.1.launched.map (fun l => l.take 1))) =
      .ok ([none], [[none]]) := by
  decide

/-! ## The handler and the sweep, as trace extensions -/

theorem alarm_handler_eq (k : Option Nat) (s : Shell) :
    alarm_handler k s = { s with trace := s.trace ++ handlerEvents k s.foreground_pid } := by
  unfold handlerEvents alarm_handler
  by_cases hfg : s.foreground_pid > 0
  · rcases k with _ | e
    · simp [hfg, Shell.emit]
    · by_cases he : e = ESRCH <;> simp [hfg, he, Shell.emit]
  · simp [hfg, Shell.emit]

theorem quiet_handlerEvents (k : Option Nat) (fg : Int) : quiet (handlerEvents k fg) = true := by
  unfold handlerEvents alarm_handler
  by_cases hfg : fg > 0
  · rcases k with _ | e
    · simp [hfg, Shell.emit, quiet, Event.armsTimer, Event.writesForeground]
    · by_cases he : e = ESRCH <;>
        simp [hfg, he, Shell.emit, quiet, Event.armsTimer, Event.writesForeground]
  · simp [hfg, Shell.emit, quiet, Event.armsTimer, Event.writesForeground]

theorem reap_sweep_eq (k : Nat) (s : Shell) :
    reap_sweep k s =
      { s with trace := s.trace ++ List.replicate (k + 1) (Event.waitpid (-1) true) } := by
  induction k generalizing s with
  | zero => simp [reap_sweep, Shell.emit]
  | succ k ih =>
    rw [reap_sweep, ih]
    simp [Shell.emit, List.replicate_succ]

theorem quiet_append (l1 l2 : List Event) : quiet (l1 ++ l2) = (quiet l1 && quiet l2) := by
  simp [quiet]

theorem quiet_fgMid (pid : Int) (timeout : Option (Option Nat)) (w1 : WaitResult) :
    quiet (fgMid pid timeout w1) = true := by
  unfold fgMid
  rw [quiet_append]
  have h1 : quiet (match timeout with
      | some k => handlerEvents k pid
      | none => []) = true := by
    cases timeout with
    | none => rfl
    | some k => exact quiet_handlerEvents k pid
  have h2 : quiet (match w1 with
      | .failed e =>
        if e = EINTR then [Event.waitpid pid true]
        else [Event.perror (some "waitpid error".toList)]
      | _ => []) = true := by
    cases w1 with
    | reaped st => rfl
    | nothing => rfl
    | failed e =>
      by_cases he : e = EINTR <;> simp [he, quiet, Event.armsTimer, Event.writesForeground]
  rw [h1, h2]
  rfl

theorem quiet_fgTail (status : Nat) : quiet (fgTail status) = true := by
  unfold fgTail
  split <;> simp [quiet, Event.armsTimer, Event.writesForeground]

theorem single_foreground_eq (arguments : ArgArray) (arg_count : Nat) (os : SingleOs)
    (fg : Int) (timer : Option Nat) (trace : List Event) (hpos : 0 < os.fork_ret) :
    execute_single_command arguments arg_count false os
        { foreground_pid := fg, timer := timer, trace := trace } =
      .returned (Shell.mk 0 none
        (trace ++ Event.fork os.fork_ret :: Event.storeForeground os.fork_ret ::
          Event.alarm 10 :: Event.waitpid os.fork_ret false ::
          (fgMid os.fork_ret os.timeout os.wait1 ++ Event.alarm 0 ::
            Event.storeForeground 0 :: fgTail (fgStatus os.wait1 os.wait2 os.status0)))) := by
  obtain ⟨pid, ee, pe, reap, timeout, w1, w2, st0⟩ := os
  simp only at hpos ⊢
  have hneg : ¬ pid < 0 := by omega
  have hne : ¬ pid = 0 := by omega
  unfold execute_single_command
  simp only [hneg, hne, if_false, Bool.false_eq_true]
  rcases timeout with _ | k <;> rcases w1 with st | _ | e
  all_goals
    simp only [fgMid, fgStatus, fgTail, deliver_SIGALRM, alarm_handler_eq, alarm,
      storeForeground, Shell.emit]
    try by_cases he : e = EINTR
    all_goals
      split_ifs <;> simp_all
  
/-! ## C3: the foreground slot and the timer around a single command -/

/-- C3: entered with the slot empty and the timer disarmed, `execute_single_command`
returns in the parent (any `fork` result other than 0) with `foreground_pid = 0` and
the timer disarmed, whatever `fork`, `waitpid`, the timer and `kill` do. On fork
failure and on a background launch no call arms the timer or stores to the slot. On
the foreground path the calls are: `fork`, the store of the child's pid, `alarm(10)`,
the blocking `waitpid`, then calls that neither arm nor store, then `alarm(0)`, the
store of 0, and after that again nothing that arms or stores. -/
theorem single_command_restores_idle (arguments : ArgArray) (arg_count : Nat)
    (is_background : Bool) (os : SingleOs) (trace : List Event) (hparent : os.fork_ret ≠ 0) :
    ∃ s, execute_single_command arguments arg_count is_background os (idle trace) =
        .returned s ∧
      s.foreground_pid = 0 ∧ s.timer = none ∧
      ((os.fork_ret < 0 ∨ is_background = true) →
        ∃ evs, s.trace = trace ++ evs ∧ quiet evs = true) ∧
      ((0 < os.fork_ret ∧ is_background = false) →
        ∃ mid tail, s.trace = trace ++ Event.fork os.fork_ret ::
            Event.storeForeground os.fork_ret :: Event.alarm 10 ::
            Event.waitpid os.fork_ret false ::
            (mid ++ Event.alarm 0 :: Event.storeForeground 0 :: tail) ∧
          quiet mid = true ∧ quiet tail = true) := by
  by_cases hneg : os.fork_ret < 0
  · have hout : execute_single_command arguments arg_count is_background os (idle trace) =
        .returned (Shell.mk 0 none
          (trace ++ [Event.fork os.fork_ret, Event.perror (some "fork failed".toList)])) := by
      simp [execute_single_command, hneg, idle, Shell.emit]
    refine ⟨_, hout, rfl, rfl, ?_, ?_⟩
    · intro _
      exact ⟨_, rfl, by simp [quiet, Event.armsTimer, Event.writesForeground]⟩
    · intro h; omega
  · have hpos : 0 < os.fork_ret := by omega
    cases is_background with
    | true =>
      have hout : execute_single_command arguments arg_count true os (idle trace) =
          .returned (Shell.mk 0 none
            (trace ++ (Event.fork os.fork_ret :: Event.printBackgroundJob os.fork_ret ::
              List.replicate (os.reapable + 1) (Event.waitpid (-1) true)))) := by
        simp [execute_single_command, hneg, hparent, reap_sweep_eq, idle, Shell.emit]
      refine ⟨_, hout, rfl, rfl, ?_, ?_⟩
      · intro _
        exact ⟨_, rfl, by simp [quiet, Event.armsTimer, Event.writesForeground]⟩
      · intro h; simp at h
    | false =>
      refine ⟨_, single_foreground_eq arguments arg_count os 0 none trace hpos, rfl, rfl,
        ?_, ?_⟩
      · intro h
        rcases h with h | h
        · omega
        · simp at h
      · intro _
        exact ⟨_, _, rfl, quiet_fgMid _ _ _, quiet_fgTail _⟩

/-- C3, concrete run: the timed-out foreground command. -/
theorem single_command_restores_idle_witness :
    timedOutOs.fork_ret ≠ 0 ∧
    execute_single_command [some "sleep".toList, some "20".toList, none] 2 false timedOutOs
        (idle []) =
      .returned (Shell.mk 0 none
        [.fork 100, .storeForeground 100, .alarm 10, .waitpid 100 false, .printTimedOut 100,
          .kill 100 .SIGKILL, .signal .SIGALRM .alarm_handler, .waitpid 100 true, .alarm 0,
          .storeForeground 0]) ∧
    ∃ s, execute_single_command [some "sleep".toList, some "20".toList, none] 2 false
          timedOutOs (idle []) = .returned s ∧
      s.foreground_pid = 0 ∧ s.timer = none ∧
      ((timedOutOs.fork_ret < 0 ∨ false = true) →
        ∃ evs, s.trace = [] ++ evs ∧ quiet evs = true) ∧
      ((0 < timedOutOs.fork_ret ∧ false = false) →
        ∃ mid tail, s.trace = [] ++ Event.fork timedOutOs.fork_ret ::
            Event.storeForeground timedOutOs.fork_ret :: Event.alarm 10 ::
            Event.waitpid timedOutOs.fork_ret false ::
            (mid ++ Event.alarm 0 :: Event.storeForeground 0 :: tail) ∧
          quiet mid = true ∧ quiet tail = true) :=
  ⟨by decide, by decide,
    single_command_restores_idle [some "sleep".toList, some "20".toList, none] 2 false
      timedOutOs [] (by decide)⟩

/-! ## C4 and C5: failures inside `execute_pipe` -/

/-- C4, the code at the failing input: in either child of a pipeline a failed
`execvp` ends in `exit(1)` whatever `errno` is, `ENOENT` included. The child of a
single command exits with 127 when `errno` is `ENOENT` at line 224 and with 1
otherwise: with `perror` leaving `errno` alone that is 127 exactly for a program not
found, and when `perror` overwrites `errno` the code follows the overwritten value.
With `arguments[0] == NULL` that child dies of `SIGSEGV` inside `execvp`. In every
case the child exits, is killed or runs the new program; it never returns to the
caller. -/
theorem pipeline_child_not_found_exits_one (cmd1_args cmd2_args arguments : ArgArray)
    (prog : CStr) (n : Nat) (bg : Bool) (rd wr : Nat) (e : Nat) (pe : Option Nat)
    (s : Shell) :
    (∃ s1, execute_pipe cmd1_args cmd2_args bg
        ⟨some (rd, wr), 0, some ENOENT, 0, none⟩ s = .exited 1 s1) ∧
    (∃ s2, execute_pipe cmd1_args cmd2_args bg
        ⟨some (rd, wr), 100, none, 0, some ENOENT⟩ s = .exited 1 s2) ∧
    (∃ s3, execute_single_command (some prog :: arguments) n bg
        ⟨0, some e, none, 0, none, .nothing, .nothing, 0⟩ s =
          .exited (if e = ENOENT then 127 else 1) s3) ∧
    (∃ s4, execute_single_command (some prog :: arguments) n bg
        ⟨0, some e, pe, 0, none, .nothing, .nothing, 0⟩ s =
          .exited (if pe.getD e = ENOENT then 127 else 1) s4) ∧
    (∃ s5, execute_single_command (none :: arguments) n bg
        ⟨0, some e, pe, 0, none, .nothing, .nothing, 0⟩ s = .killed .SIGSEGV s5) ∧
    (∀ os s1, os.fork_ret = 0 →
      execute_single_command arguments n bg os s ≠ .returned s1) ∧
    (∀ os s1, os.pipe_ret = some (rd, wr) →
      (os.fork1 = 0 ∨ (0 < os.fork1 ∧ os.fork2 = 0)) →
      execute_pipe cmd1_args cmd2_args bg os s ≠ .returned s1) := by
  refine ⟨⟨_, rfl⟩, ⟨_, rfl⟩, ⟨_, rfl⟩, ⟨_, rfl⟩, ⟨_, rfl⟩, ?_, ?_⟩
  · intro os s1 h0
    rcases hfa : firstArg arguments with _ | a <;>
      rcases hee : os.exec_errno with _ | e1 <;>
      simp [execute_single_command, h0, hee, hfa]
  · intro os s1 hp hf
    obtain ⟨pr, f1, e1, f2, e2⟩ := os
    simp only at hp hf
    subst hp
    rcases hf with h0 | ⟨h1, h2⟩
    · subst h0
      cases e1 <;> simp [execute_pipe, pipe_child_exec]
    · subst h2
      have h1n : ¬ f1 < 0 := by omega
      have h10 : ¬ f1 = 0 := by omega
      cases e2 <;> simp [execute_pipe, pipe_child_exec, h1n, h10]

/-- C5, the code at the failing inputs: when the first `fork` fails after the channel
was created, `execute_pipe` returns after `perror` with no `close` at all; when the
second `fork` fails it returns with no `close` and no `waitpid` for the first child
(pid 100 here). -/
theorem pipe_fork_failure_returns_early (cmd1_args cmd2_args : ArgArray) (bg : Bool)
    (rd wr : Nat) :
    execute_pipe cmd1_args cmd2_args bg ⟨some (rd, wr), -1, none, 0, none⟩ (idle []) =
      .returned (Shell.mk 0 none
        [.pipe (some (rd, wr)), .fork (-1), .perror (some "fork cmd1 failed".toList)]) ∧
    execute_pipe cmd1_args cmd2_args bg ⟨some (rd, wr), 100, none, -1, none⟩ (idle []) =
      .returned (Shell.mk 0 none
        [.pipe (some (rd, wr)), .fork 100, .fork (-1),
          .perror (some "fork cmd2 failed".toList)]) := by
  constructor <;> simp [execute_pipe, idle, Shell.emit]

/-! ## C7: `execute_pipe` and the foreground machinery -/

theorem pipe_child_exec_trace (args : ArgArray) (ee : Option Nat) (s : Shell) :
    (pipe_child_exec args ee s).shell.foreground_pid = s.foreground_pid ∧
    ∃ evs, (pipe_child_exec args ee s).shell.trace = s.trace ++ evs ∧ quiet evs = true := by
  cases ee with
  | none =>
    refine ⟨rfl, [.signal .SIGINT .SIG_DFL, .alarm 0, .signal .SIGALRM .SIG_DFL,
      .execvp (firstArg args) args], ?_, ?_⟩
    · simp [pipe_child_exec, Outcome.shell, Shell.emit, alarm]
    · simp [quiet, Event.armsTimer, Event.writesForeground]
  | some e =>
    refine ⟨rfl, [.signal .SIGINT .SIG_DFL, .alarm 0, .signal .SIGALRM .SIG_DFL,
      .execvp (firstArg args) args, .perror (firstArg args), .exit 1], ?_, ?_⟩
    · simp [pipe_child_exec, Outcome.shell, Shell.emit, alarm]
    · simp [quiet, Event.armsTimer, Event.writesForeground]

/-- C7: `execute_pipe` does the same thing for `is_background` true and false; no call
it makes arms the timer or stores to `foreground_pid`, whose value it leaves as it
was; and when the channel and both children are created the parent's calls are
exactly `pipe`, `fork`, `fork`, `close` of the read end, `close` of the write end,
a blocking `waitpid` for the first child and one for the second, while the first
child redirects standard output to the write end and the second standard input from
the read end before `execvp`. -/
theorem pipe_ignores_background_and_timer (cmd1_args cmd2_args : ArgArray) (os : PipeOs)
    (s : Shell) :
    execute_pipe cmd1_args cmd2_args true os s = execute_pipe cmd1_args cmd2_args false os s ∧
    (∀ bg, (execute_pipe cmd1_args cmd2_args bg os s).shell.foreground_pid = s.foreground_pid ∧
      ∃ evs, (execute_pipe cmd1_args cmd2_args bg os s).shell.trace = s.trace ++ evs ∧
        quiet evs = true) ∧
    (∀ bg rd wr, os.pipe_ret = some (rd, wr) → 0 < os.fork1 → 0 < os.fork2 →
      execute_pipe cmd1_args cmd2_args bg os s =
        .returned (Shell.mk s.foreground_pid s.timer
          (s.trace ++ [.pipe (some (rd, wr)), .fork os.fork1, .fork os.fork2, .close rd,
            .close wr, .waitpid os.fork1 false, .waitpid os.fork2 false]))) ∧
    (∀ bg rd wr, os.pipe_ret = some (rd, wr) → os.fork1 = 0 → os.exec1_errno = none →
      execute_pipe cmd1_args cmd2_args bg os s =
        .replaced (Shell.mk s.foreground_pid none
          (s.trace ++ [.pipe (some (rd, wr)), .fork 0, .close rd, .dup2 wr STDOUT_FILENO,
            .close wr, .signal .SIGINT .SIG_DFL, .alarm 0, .signal .SIGALRM .SIG_DFL,
            .execvp (firstArg cmd1_args) cmd1_args]))) ∧
    (∀ bg rd wr, os.pipe_ret = some (rd, wr) → 0 < os.fork1 → os.fork2 = 0 →
      os.exec2_errno = none →
      execute_pipe cmd1_args cmd2_args bg os s =
        .replaced (Shell.mk s.foreground_pid none
          (s.trace ++ [.pipe (some (rd, wr)), .fork os.fork1, .fork 0, .close wr,
            .dup2 rd STDIN_FILENO, .close rd, .signal .SIGINT .SIG_DFL, .alarm 0,
            .signal .SIGALRM .SIG_DFL, .execvp (firstArg cmd2_args) cmd2_args]))) := by
  obtain ⟨pr, f1, e1, f2, e2⟩ := os
  refine ⟨rfl, ?_, ?_, ?_, ?_⟩
  · intro bg
    rcases pr with _ | ⟨rd, wr⟩
    · refine ⟨rfl, [.pipe none, .perror (some "pipe failed".toList)], ?_, by decide⟩
      simp [execute_pipe, Outcome.shell, Shell.emit]
    · by_cases h1 : f1 < 0
      · refine ⟨by simp [execute_pipe, h1, Outcome.shell, Shell.emit],
          [.pipe (some (rd, wr)), .fork f1, .perror (some "fork cmd1 failed".toList)], ?_, ?_⟩
        · simp [execute_pipe, h1, Outcome.shell, Shell.emit]
        · simp [quiet, Event.armsTimer, Event.writesForeground]
      · by_cases h10 : f1 = 0
        · obtain ⟨hfg, evs, htr, hq⟩ := pipe_child_exec_trace cmd1_args e1
            ((((s.emit (.pipe (some (rd, wr)))).emit (.fork f1)).emit (.close rd)).emit
              (.dup2 wr STDOUT_FILENO) |>.emit (.close wr))
          refine ⟨by simpa [execute_pipe, h1, h10, Shell.emit] using hfg,
            [.pipe (some (rd, wr)), .fork f1, .close rd, .dup2 wr STDOUT_FILENO, .close wr] ++
              evs, ?_, ?_⟩
          · simpa [execute_pipe, h1, h10, Shell.emit] using htr
          · rw [quiet_append, hq]
            simp [quiet, Event.armsTimer, Event.writesForeground]
        · by_cases h2 : f2 < 0
          · refine ⟨by simp [execute_pipe, h1, h10, h2, Outcome.shell, Shell.emit],
              [.pipe (some (rd, wr)), .fork f1, .fork f2,
                .perror (some "fork cmd2 failed".toList)], ?_, ?_⟩
            · simp [execute_pipe, h1, h10, h2, Outcome.shell, Shell.emit]
            · simp [quiet, Event.armsTimer, Event.writesForeground]
          · by_cases h20 : f2 = 0
            · obtain ⟨hfg, evs, htr, hq⟩ := pipe_child_exec_trace cmd2_args e2
                (((((s.emit (.pipe (some (rd, wr)))).emit (.fork f1)).emit (.fork f2)).emit
                  (.close wr)).emit (.dup2 rd STDIN_FILENO) |>.emit (.close rd))
              refine ⟨by simpa [execute_pipe, h1, h10, h2, h20, Shell.emit] using hfg,
                [.pipe (some (rd, wr)), .fork f1, .fork f2, .close wr, .dup2 rd STDIN_FILENO,
                  .close rd] ++ evs, ?_, ?_⟩
              · simpa [execute_pipe, h1, h10, h2, h20, Shell.emit] using htr
              · rw [quiet_append, hq]
                simp [quiet, Event.armsTimer, Event.writesForeground]
            · refine ⟨by simp [execute_pipe, h1, h10, h2, h20, Outcome.shell, Shell.emit],
                [.pipe (some (rd, wr)), .fork f1, .fork f2, .close rd, .close wr,
                  .waitpid f1 false, .waitpid f2 false], ?_, ?_⟩
              · simp [execute_pipe, h1, h10, h2, h20, Outcome.shell, Shell.emit]
              · simp [quiet, Event.armsTimer, Event.writesForeground]
  · intro bg rd wr hp h1 h2
    simp only at hp h1 h2
    subst hp
    have h1n : ¬ f1 < 0 := by omega
    have h10 : ¬ f1 = 0 := by omega
    have h2n : ¬ f2 < 0 := by omega
    have h20 : ¬ f2 = 0 := by omega
    simp [execute_pipe, h1n, h10, h2n, h20, Shell.emit]
  · intro bg rd wr hp h1 he
    simp only at hp h1 he
    subst hp h1 he
    simp [execute_pipe, pipe_child_exec, Shell.emit, alarm]
  · intro bg rd wr hp h1 h2 he
    simp only at hp h1 h2 he
    subst hp h2 he
    have h1n : ¬ f1 < 0 := by omega
    have h10 : ¬ f1 = 0 := by omega
    simp [execute_pipe, pipe_child_exec, h1n, h10, Shell.emit, alarm]

/-! ## C9: the timer-expiry handler -/

theorem killsTargetSlot_of_noKillNoStore (fg : Int) (evs : List Event)
    (h : noKillNoStore evs = true) : killsTargetSlot fg evs = true := by
  induction evs with
  | nil => rfl
  | cons e es ih =>
    have h2 : noKillNoStore es = true := by
      simp only [noKillNoStore, List.all_cons, Bool.and_eq_true] at h ⊢
      exact h.2
    cases e <;> first
      | exact ih h2
      | (simp [noKillNoStore, Event.isKill, Event.writesForeground] at h)

theorem killsTargetSlot_append_noStore (fg : Int) (l1 l2 : List Event)
    (h1 : killsTargetSlot fg l1 = true) (hns : l1.all (fun e => !e.writesForeground) = true)
    (h2 : killsTargetSlot fg l2 = true) : killsTargetSlot fg (l1 ++ l2) = true := by
  induction l1 with
  | nil => simpa using h2
  | cons e es ih =>
    have hns2 : es.all (fun e => !e.writesForeground) = true := by
      simp only [List.all_cons, Bool.and_eq_true] at hns
      exact hns.2
    cases e <;> simp_all [killsTargetSlot, Event.writesForeground]

theorem handlerEvents_kills (k : Option Nat) (fg : Int) :
    killsTargetSlot fg (handlerEvents k fg) = true ∧
      (handlerEvents k fg).all (fun e => !e.writesForeground) = true := by
  unfold handlerEvents alarm_handler
  by_cases hfg : fg > 0
  · rcases k with _ | e
    · simp [hfg, Shell.emit, killsTargetSlot, Event.writesForeground]
    · by_cases he : e = ESRCH <;>
        simp [hfg, he, Shell.emit, killsTargetSlot, Event.writesForeground]
  · simp [hfg, Shell.emit, killsTargetSlot, Event.writesForeground]

theorem fgMid_kills (pid : Int) (timeout : Option (Option Nat)) (w1 : WaitResult) :
    killsTargetSlot pid (fgMid pid timeout w1) = true ∧
      (fgMid pid timeout w1).all (fun e => !e.writesForeground) = true := by
  unfold fgMid
  have hw : noKillNoStore (match w1 with
      | .failed e =>
        if e = EINTR then [Event.waitpid pid true]
        else [Event.perror (some "waitpid error".toList)]
      | _ => []) = true := by
    cases w1 with
    | reaped st => rfl
    | nothing => rfl
    | failed e =>
      by_cases he : e = EINTR <;>
        simp [he, noKillNoStore, Event.isKill, Event.writesForeground]
  have hw2 := killsTargetSlot_of_noKillNoStore pid _ hw
  have hw3 : (match w1 with
      | .failed e =>
        if e = EINTR then [Event.waitpid pid true]
        else [Event.perror (some "waitpid error".toList)]
      | _ => []).all (fun e => !e.writesForeground) = true := by
    simp only [noKillNoStore, List.all_eq_true, Bool.and_eq_true] at hw ⊢
    intro x hx
    exact (hw x hx).2
  cases timeout with
  | none => exact ⟨by simpa using hw2, by simpa using hw3⟩
  | some k =>
    obtain ⟨hk1, hk2⟩ := handlerEvents_kills k pid
    refine ⟨killsTargetSlot_append_noStore _ _ _ hk1 hk2 hw2, ?_⟩
    simp only [List.all_append, Bool.and_eq_true]
    exact ⟨hk2, hw3⟩

theorem single_command_kills (arguments : ArgArray) (n : Nat) (bg : Bool) (os : SingleOs)
    (fg : Int) (timer : Option Nat) :
    killsTargetSlot fg
      (execute_single_command arguments n bg os (Shell.mk fg timer [])).shell.trace = true := by
  by_cases hneg : os.fork_ret < 0
  · simp [execute_single_command, hneg, Outcome.shell, Shell.emit, killsTargetSlot]
  · by_cases h0 : os.fork_ret = 0
    · rcases hfa : firstArg arguments with _ | a <;>
        rcases hee : os.exec_errno with _ | e <;> cases bg <;>
        simp [execute_single_command, h0, hee, hfa, Outcome.shell, Shell.emit, alarm,
          killsTargetSlot]
    · have hpos : 0 < os.fork_ret := by omega
      cases bg with
      | true =>
        have hq : noKillNoStore (Event.fork os.fork_ret ::
            Event.printBackgroundJob os.fork_ret ::
            List.replicate (os.reapable + 1) (Event.waitpid (-1) true)) = true := by
          simp [noKillNoStore, Event.isKill, Event.writesForeground]
        have := killsTargetSlot_of_noKillNoStore fg _ hq
        simpa [execute_single_command, hneg, h0, reap_sweep_eq, Outcome.shell, Shell.emit]
          using this
      | false =>
        rw [single_foreground_eq arguments n os fg timer [] hpos]
        simp only [Outcome.shell, List.nil_append, killsTargetSlot]
        obtain ⟨hm1, hm2⟩ := fgMid_kills os.fork_ret os.timeout os.wait1
        apply killsTargetSlot_append_noStore _ _ _ hm1 hm2
        simp only [killsTargetSlot]
        apply killsTargetSlot_of_noKillNoStore
        unfold fgTail
        split <;> simp [noKillNoStore, Event.isKill, Event.writesForeground]

theorem pipe_no_kill (cmd1_args cmd2_args : ArgArray) (bg : Bool) (os : PipeOs) (s : Shell) :
    ∀ p sig, Event.kill p sig ∈ (execute_pipe cmd1_args cmd2_args bg os s).shell.trace →
      Event.kill p sig ∈ s.trace := by
  intro p sig
  obtain ⟨pr, f1, e1, f2, e2⟩ := os
  rcases pr with _ | ⟨rd, wr⟩
  · simp [execute_pipe, Outcome.shell, Shell.emit]
  · by_cases h1 : f1 < 0
    · simp [execute_pipe, h1, Outcome.shell, Shell.emit]
    · by_cases h10 : f1 = 0
      · cases e1 <;>
          simp [execute_pipe, pipe_child_exec, h10, Outcome.shell, Shell.emit, alarm]
      · by_cases h2 : f2 < 0
        · simp [execute_pipe, h1, h10, h2, Outcome.shell, Shell.emit]
        · by_cases h20 : f2 = 0
          · cases e2 <;>
              simp [execute_pipe, pipe_child_exec, h1, h10, h20, Outcome.shell, Shell.emit,
                alarm]
          · simp [execute_pipe, h1, h10, h2, h20, Outcome.shell, Shell.emit]

/-- C9: in every state `alarm_handler` leaves `foreground_pid` and the timer as they
are; it issues a `kill` exactly when `foreground_pid` is positive, and then exactly
one, `kill(foreground_pid, SIGKILL)` with that positive pid (a single process, not a
group); when `kill` answers `ESRCH` (or succeeds) no `perror` follows; its last call
re-installs `alarm_handler` for `SIGALRM`. Consequently every `kill` in a run of
`execute_single_command` is a `SIGKILL` aimed at the pid the slot holds at that
moment, and `execute_pipe` issues none. -/
theorem alarm_handler_kills_only_foreground (k : Option Nat) (s : Shell) :
    (alarm_handler k s).foreground_pid = s.foreground_pid ∧
    (alarm_handler k s).timer = s.timer ∧
    (∃ evs, (alarm_handler k s).trace = s.trace ++ evs ∧
      (evs.any Event.isKill = true ↔ 0 < s.foreground_pid) ∧
      evs.filter Event.isKill =
        (if 0 < s.foreground_pid then [Event.kill s.foreground_pid .SIGKILL] else []) ∧
      ((k = some ESRCH ∨ k = none) → ∀ m, Event.perror m ∉ evs) ∧
      evs.getLast? = some (.signal .SIGALRM .alarm_handler)) ∧
    (∀ arguments n bg os fg timer, killsTargetSlot fg
      (execute_single_command arguments n bg os (Shell.mk fg timer [])).shell.trace = true) ∧
    (∀ cmd1_args cmd2_args bg os fg timer p sig, Event.kill p sig ∉
      (execute_pipe cmd1_args cmd2_args bg os (Shell.mk fg timer [])).shell.trace) := by
  refine ⟨?_, ?_, ?_, ?_, ?_⟩
  · rw [alarm_handler_eq]
  · rw [alarm_handler_eq]
  · refine ⟨handlerEvents k s.foreground_pid, by rw [alarm_handler_eq], ?_⟩
    unfold handlerEvents alarm_handler
    by_cases hfg : s.foreground_pid > 0
    · have hfg2 : 0 < s.foreground_pid := hfg
      rcases k with _ | e
      · simp [hfg, hfg2, Shell.emit, Event.isKill]
      · by_cases he : e = ESRCH <;> simp [hfg, hfg2, he, Shell.emit, Event.isKill]
    · have hfg2 : ¬ 0 < s.foreground_pid := hfg
      simp [hfg, hfg2, Shell.emit, Event.isKill]
  · intro arguments n bg os fg timer
    exact single_command_kills arguments n bg os fg timer
  · intro cmd1_args cmd2_args bg os fg timer p sig hmem
    have := pipe_no_kill cmd1_args cmd2_args bg os (Shell.mk fg timer []) p sig hmem
    simp at this

end Quash
